import Mathlib

/-!
# Verification of the beeline-rust tracing core

A shallow embedding, in Lean 4, of the beeline-rust distributed-tracing SDK
core: the propagation header codec (`src/propagation.rs`), and the
Trace/Span data model with its send protocol (`src/trace.rs`, `src/lib.rs`).

Modelling conventions:
* Rust `String`s and byte buffers are modelled as `List Nat` (`Bytes`), each
  entry one byte.  `ascii` converts a Lean string literal to its bytes.
* `serde_json::Value` is modelled by the inductive `Json`.  JSON numbers
  backed by `u64`/`i64` are `Json.num : Int`; numbers backed by `f64` are
  `Json.fnum : ℚ` (floating point is modelled by exact rationals and is kept
  outside the verified serialization fragment, see `Json.canonV`).
* Fallible or panicking Rust code returns `Option`: a `.unwrap()` failure,
  an `unimplemented!()` or an out-of-bounds index is `none`.
* Shared mutable state (`Arc<Mutex<…>>`) is modelled by a heap: a `World`
  carries association lists from identifiers to spans and traces, and every
  operation is a function on `World`.
-/

/-! ## Bytes and generic list utilities -/

/-- Byte strings: Rust `String`/`&[u8]` contents, one `Nat` per byte. -/
abbrev Bytes := List Nat

/-- Bytes of an ASCII string literal (for ASCII, UTF-8 bytes = code points). -/
def ascii (s : String) : Bytes := s.toList.map Char.toNat

/-- All entries are genuine bytes (`< 256`). -/
def bytesOk : Bytes → Bool
  | [] => true
  | b :: l => decide (b < 256) && bytesOk l

/-- Association-list lookup (models `HashMap::get` / `BTreeMap::get`). -/
def lookupA {α : Type} (l : List (Bytes × α)) (k : Bytes) : Option α :=
  match l with
  | [] => none
  | (k', v) :: rest => if k' = k then some v else lookupA rest k

/-- Association-list insert-or-overwrite, keeping the original position of an
existing key and appending a fresh key (models `HashMap::insert`, where
iteration order is never observed by the embedded code). -/
def insertA {α : Type} (l : List (Bytes × α)) (k : Bytes) (v : α) :
    List (Bytes × α) :=
  match l with
  | [] => [(k, v)]
  | (k', v') :: rest =>
      if k' = k then (k, v) :: rest else (k', v') :: insertA rest k v

/-- Association-list removal (models `HashMap::remove`). -/
def removeA {α : Type} (l : List (Bytes × α)) (k : Bytes) : List (Bytes × α) :=
  match l with
  | [] => []
  | (k', v) :: rest => if k' = k then rest else (k', v) :: removeA rest k

theorem lookupA_insertA_self {α : Type} (l : List (Bytes × α)) (k : Bytes)
    (v : α) : lookupA (insertA l k v) k = some v := by
  induction l with
  | nil => simp [insertA, lookupA]
  | cons hd tl ih =>
      obtain ⟨k', v'⟩ := hd
      by_cases h : k' = k
      · simp [insertA, lookupA, h]
      · simp [insertA, lookupA, h, ih]

theorem lookupA_insertA_ne {α : Type} (l : List (Bytes × α)) (k k' : Bytes)
    (v : α) (h : k ≠ k') : lookupA (insertA l k v) k' = lookupA l k' := by
  induction l with
  | nil => simp [insertA, lookupA, h]
  | cons hd tl ih =>
      obtain ⟨k₀, v₀⟩ := hd
      by_cases h0 : k₀ = k
      · subst h0
        simp [insertA, lookupA, h]
      · simp only [insertA, if_neg h0, lookupA]
        by_cases h1 : k₀ = k'
        · simp [h1]
        · simp [h1, ih]

/-! ## Splitting byte strings

Models of Rust's `str::splitn(2, c)` (split at the first occurrence only)
and `str::split(c)` (split at every occurrence; always at least one piece).
-/

/-- `splitOnce c l` is `l.splitn(2, c)`: the part before the first `c`, and
`some` remainder if `c` occurs at all. -/
def splitOnce (c : Nat) : Bytes → Bytes × Option Bytes
  | [] => ([], none)
  | b :: l =>
      if b = c then ([], some l)
      else
        let (pre, post) := splitOnce c l
        (b :: pre, post)

theorem splitOnce_some_length (c : Nat) :
    ∀ (l pre rest : Bytes), splitOnce c l = (pre, some rest) →
      rest.length < l.length := by
  intro l
  induction l with
  | nil => intro pre rest h; simp [splitOnce] at h
  | cons b t ih =>
      intro pre rest h
      by_cases hb : b = c
      · simp only [splitOnce, if_pos hb, Prod.mk.injEq, Option.some.injEq] at h
        simp [← h.2, List.length_cons]
      · simp only [splitOnce, if_neg hb] at h
        have := ih (splitOnce c t).1 rest ?_
        · simp only [List.length_cons]; omega
        · cases hs : splitOnce c t with
          | mk pre' post' =>
              simp only [hs] at h
              cases h
              simp_all

/-- `splitAll c l` is `l.split(c)`: all pieces, in order; never empty. -/
def splitAll (c : Nat) (l : Bytes) : List Bytes :=
  match h : splitOnce c l with
  | (pre, none) => [pre]
  | (pre, some rest) => pre :: splitAll c rest
  termination_by l.length
  decreasing_by exact splitOnce_some_length c l pre rest h

theorem splitOnce_not_mem (c : Nat) (l : Bytes) (h : c ∉ l) :
    splitOnce c l = (l, none) := by
  induction l with
  | nil => rfl
  | cons b t ih =>
      simp only [List.mem_cons, not_or] at h
      simp [splitOnce, Ne.symm h.1, ih h.2]

theorem splitOnce_append (c : Nat) (l₁ l₂ : Bytes) (h : c ∉ l₁) :
    splitOnce c (l₁ ++ c :: l₂) = (l₁, some l₂) := by
  induction l₁ with
  | nil => simp [splitOnce]
  | cons b t ih =>
      simp only [List.mem_cons, not_or] at h
      simp [splitOnce, Ne.symm h.1, ih h.2]

theorem splitAll_not_mem (c : Nat) (l : Bytes) (h : c ∉ l) :
    splitAll c l = [l] := by
  rw [splitAll, splitOnce_not_mem c l h]

theorem splitAll_append (c : Nat) (l₁ l₂ : Bytes) (h : c ∉ l₁) :
    splitAll c (l₁ ++ c :: l₂) = l₁ :: splitAll c l₂ := by
  rw [splitAll, splitOnce_append c l₁ l₂ h]

/-! ## Base64

Executable model of the `base64` crate's `encode`/`decode` (standard
alphabet, canonical `=` padding, trailing bits required to be zero), the pair
of functions `Propagation` feeds the `context` clause through.
-/

/-- Standard-alphabet character (as a byte) of a six-bit group. -/
def b64Char (n : Nat) : Nat :=
  if n < 26 then 65 + n
  else if n < 52 then 97 + (n - 26)
  else if n < 62 then 48 + (n - 52)
  else if n = 62 then 43
  else 47

/-- Six-bit value of a standard-alphabet character, `none` for any byte
outside the alphabet (including the padding byte `'='`). -/
def b64Val (b : Nat) : Option Nat :=
  if 65 ≤ b ∧ b ≤ 90 then some (b - 65)
  else if 97 ≤ b ∧ b ≤ 122 then some (b - 97 + 26)
  else if 48 ≤ b ∧ b ≤ 57 then some (b - 48 + 52)
  else if b = 43 then some 62
  else if b = 47 then some 63
  else none

theorem b64Val_b64Char : ∀ n < 64, b64Val (b64Char n) = some n := by decide

theorem b64Char_ne_sep : ∀ n < 64,
    b64Char n ≠ 59 ∧ b64Char n ≠ 44 ∧ b64Char n ≠ 61 := by decide

/-- `base64::encode`: three input bytes become four alphabet bytes; a short
final group is padded with `'='` (byte 61). -/
def b64Encode : Bytes → Bytes
  | [] => []
  | [b1] => [b64Char (b1 / 4), b64Char (b1 % 4 * 16), 61, 61]
  | [b1, b2] =>
      [b64Char (b1 / 4), b64Char (b1 % 4 * 16 + b2 / 16),
       b64Char (b2 % 16 * 4), 61]
  | b1 :: b2 :: b3 :: rest =>
      b64Char (b1 / 4) :: b64Char (b1 % 4 * 16 + b2 / 16) ::
      b64Char (b2 % 16 * 4 + b3 / 64) :: b64Char (b3 % 64) :: b64Encode rest

/-- Decode a final four-byte group, which is the only place `'='` padding
(byte 61) is legal; non-zero trailing bits are rejected, as in the crate's
default config. -/
def b64DecodeLast (c1 c2 c3 c4 : Nat) : Option Bytes :=
  if c3 = 61 then
    if c4 = 61 then do
      let v1 ← b64Val c1
      let v2 ← b64Val c2
      if v2 % 16 = 0 then some [v1 * 4 + v2 / 16] else none
    else none
  else if c4 = 61 then do
    let v1 ← b64Val c1
    let v2 ← b64Val c2
    let v3 ← b64Val c3
    if v3 % 4 = 0 then some [v1 * 4 + v2 / 16, v2 % 16 * 16 + v3 / 4]
    else none
  else do
    let v1 ← b64Val c1
    let v2 ← b64Val c2
    let v3 ← b64Val c3
    let v4 ← b64Val c4
    some [v1 * 4 + v2 / 16, v2 % 16 * 16 + v3 / 4, v3 % 4 * 64 + v4]

/-- `base64::decode` with the standard config: length must be a multiple of
four, `=` padding only in the final group. -/
def b64Decode : Bytes → Option Bytes
  | [] => some []
  | c1 :: c2 :: c3 :: c4 :: rest =>
      if rest.isEmpty then b64DecodeLast c1 c2 c3 c4
      else do
        let v1 ← b64Val c1
        let v2 ← b64Val c2
        let v3 ← b64Val c3
        let v4 ← b64Val c4
        let tail ← b64Decode rest
        some ((v1 * 4 + v2 / 16) :: (v2 % 16 * 16 + v3 / 4) ::
              (v3 % 4 * 64 + v4) :: tail)
  | _ => none

theorem b64Char_ne_61 : ∀ n : Nat, b64Char n ≠ 61 := by
  intro n
  unfold b64Char
  split_ifs <;> omega

theorem b64Encode_cons_ne_nil (b : Nat) (l : Bytes) :
    ∃ y ys, b64Encode (b :: l) = y :: ys := by
  match l with
  | [] => exact ⟨_, _, rfl⟩
  | [b2] => exact ⟨_, _, rfl⟩
  | b2 :: b3 :: t => exact ⟨_, _, rfl⟩

theorem b64Decode_b64Encode : ∀ l : Bytes, bytesOk l = true →
    b64Decode (b64Encode l) = some l := by
  intro l
  induction l using b64Encode.induct with
  | case1 => intro _; rfl
  | case2 b1 =>
      intro h
      simp only [bytesOk, Bool.and_eq_true, decide_eq_true_eq] at h
      obtain ⟨h, -⟩ := h
      have h1 : b1 / 4 < 64 := by omega
      have h2 : b1 % 4 * 16 < 64 := by omega
      have : b1 % 4 * 16 % 16 = 0 := by omega
      simp only [b64Encode, b64Decode, List.isEmpty_nil, if_true,
        b64DecodeLast, if_pos rfl, b64Val_b64Char _ h1, b64Val_b64Char _ h2,
        Option.bind_eq_bind, Option.some_bind, this, reduceIte,
        Option.some.injEq, List.cons.injEq, and_true]
      omega
  | case3 b1 b2 =>
      intro h
      simp only [bytesOk, Bool.and_eq_true, decide_eq_true_eq] at h
      obtain ⟨h1, h2, -⟩ := h
      have e1 : b1 / 4 < 64 := by omega
      have e2 : b1 % 4 * 16 + b2 / 16 < 64 := by omega
      have e3 : b2 % 16 * 4 < 64 := by omega
      have : b2 % 16 * 4 % 4 = 0 := by omega
      simp only [b64Encode, b64Decode, List.isEmpty_nil, if_true,
        b64DecodeLast, if_neg (b64Char_ne_61 _), if_pos rfl,
        b64Val_b64Char _ e1, b64Val_b64Char _ e2, b64Val_b64Char _ e3,
        Option.bind_eq_bind, Option.some_bind, this, reduceIte,
        Option.some.injEq, List.cons.injEq, and_true]
      constructor <;> omega
  | case4 b1 b2 b3 rest ih =>
      intro h
      simp only [bytesOk, Bool.and_eq_true, decide_eq_true_eq] at h
      obtain ⟨h1, h2, h3, hrest⟩ := h
      have e1 : b1 / 4 < 64 := by omega
      have e2 : b1 % 4 * 16 + b2 / 16 < 64 := by omega
      have e3 : b2 % 16 * 4 + b3 / 64 < 64 := by omega
      have e4 : b3 % 64 < 64 := by omega
      have hd := ih hrest
      match hr : rest with
      | [] =>
          simp only [b64Encode, b64Decode, List.isEmpty_nil, if_true,
            b64DecodeLast, if_neg (b64Char_ne_61 _), b64Val_b64Char _ e1,
            b64Val_b64Char _ e2, b64Val_b64Char _ e3, b64Val_b64Char _ e4,
            Option.bind_eq_bind, Option.some_bind, Option.some.injEq,
            List.cons.injEq, and_true]
          exact ⟨by omega, by omega, by omega⟩
      | r :: rs =>
          obtain ⟨y, ys, hy⟩ := b64Encode_cons_ne_nil r rs
          simp only [b64Encode, hy, b64Decode, List.isEmpty_cons,
            Bool.false_eq_true, if_false, b64Val_b64Char _ e1,
            b64Val_b64Char _ e2, b64Val_b64Char _ e3, b64Val_b64Char _ e4,
            Option.bind_eq_bind, Option.some_bind]
          rw [← hy, hd]
          simp only [Option.some_bind, Option.some.injEq, List.cons.injEq]
          exact ⟨by omega, by omega, by omega, trivial⟩


theorem b64Encode_no_sep : ∀ l : Bytes, bytesOk l = true →
    ∀ b ∈ b64Encode l, b ≠ 44 ∧ b ≠ 59 := by
  intro l
  induction l using b64Encode.induct with
  | case1 => intro _ b hb; simp [b64Encode] at hb
  | case2 b1 =>
      intro h b hb
      simp only [bytesOk, Bool.and_eq_true, decide_eq_true_eq] at h
      obtain ⟨h, -⟩ := h
      simp only [b64Encode, List.mem_cons, List.not_mem_nil, or_false] at hb
      rcases hb with hb | hb | hb | hb
      · have := b64Char_ne_sep (b1 / 4) (by omega); omega
      · have := b64Char_ne_sep (b1 % 4 * 16) (by omega); omega
      · omega
      · omega
  | case3 b1 b2 =>
      intro h b hb
      simp only [bytesOk, Bool.and_eq_true, decide_eq_true_eq] at h
      obtain ⟨h1, h2, -⟩ := h
      simp only [b64Encode, List.mem_cons, List.not_mem_nil, or_false] at hb
      rcases hb with hb | hb | hb | hb
      · have := b64Char_ne_sep (b1 / 4) (by omega); omega
      · have := b64Char_ne_sep (b1 % 4 * 16 + b2 / 16) (by omega); omega
      · have := b64Char_ne_sep (b2 % 16 * 4) (by omega); omega
      · omega
  | case4 b1 b2 b3 rest ih =>
      intro h b hb
      simp only [bytesOk, Bool.and_eq_true, decide_eq_true_eq] at h
      obtain ⟨h1, h2, h3, hrest⟩ := h
      simp only [b64Encode, List.mem_cons] at hb
      rcases hb with hb | hb | hb | hb | hb
      · have := b64Char_ne_sep (b1 / 4) (by omega); omega
      · have := b64Char_ne_sep (b1 % 4 * 16 + b2 / 16) (by omega); omega
      · have := b64Char_ne_sep (b2 % 16 * 4 + b3 / 64) (by omega); omega
      · have := b64Char_ne_sep (b3 % 64) (by omega); omega
      · exact ih hrest b hb

/-! ## JSON values

Model of `serde_json::Value`.  Objects are association lists; a `BTreeMap` in
the Rust type, whose sorted-unique-keys invariant is the predicate `canonV`.
`u64`/`i64`-backed numbers are `num : Int`; `f64`-backed numbers are
`fnum : ℚ` (exact rationals stand in for floating point, which stays outside
the verified serialization fragment: `canonV` excludes `fnum`).
-/

inductive Json where
  | null : Json
  | bool : Bool → Json
  | num : Int → Json
  | fnum : ℚ → Json
  | str : Bytes → Json
  | arr : List Json → Json
  | obj : List (Bytes × Json) → Json
deriving Repr

/-- Strict lexicographic byte-string order (the `Ord` of Rust `String`
restricted to the byte level, which is what `BTreeMap<String, _>` sorts by). -/
def bytesLt : Bytes → Bytes → Bool
  | [], [] => false
  | [], _ :: _ => true
  | _ :: _, [] => false
  | a :: as, b :: bs => if a < b then true else if a = b then bytesLt as bs else false

/-- Keys strictly ascending (the `BTreeMap` invariant). -/
def keysSorted : List (Bytes × Json) → Bool
  | [] => true
  | [_] => true
  | (k1, v1) :: (k2, v2) :: ms =>
      bytesLt k1 k2 && keysSorted ((k2, v2) :: ms)

mutual

/-- Canonical values: the image of real `serde_json::Value`s — every string
is genuine bytes, every object has strictly sorted keys, and no `f64`-backed
number appears (floating point is outside the verified fragment). -/
def canonV : Json → Bool
  | .null => true
  | .bool _ => true
  | .num _ => true
  | .fnum _ => false
  | .str s => bytesOk s
  | .arr es => canonL es
  | .obj ms => keysSorted ms && canonM ms

def canonL : List Json → Bool
  | [] => true
  | v :: es => canonV v && canonL es

def canonM : List (Bytes × Json) → Bool
  | [] => true
  | (k, v) :: ms => bytesOk k && canonV v && canonM ms

end

/-! ### Printing (`serde_json::to_string` / `Value::to_string`)

Compact printing, no whitespace; map keys in list order (sorted for
canonical values, exactly like `BTreeMap` iteration); strings escaped the
way serde escapes them: `"` and `\` and the short control escapes
`\b \t \n \f \r`, any other byte below 0x20 as `\u00XX` (lowercase hex),
everything else verbatim. -/

/-- Lowercase hex digit. -/
def hexDigit (n : Nat) : Nat := if n < 10 then 48 + n else 87 + n

/-- serde's escaping of one byte of string content. -/
def escByte (b : Nat) : Bytes :=
  if b = 34 then [92, 34]
  else if b = 92 then [92, 92]
  else if b = 8 then [92, 98]
  else if b = 9 then [92, 116]
  else if b = 10 then [92, 110]
  else if b = 12 then [92, 102]
  else if b = 13 then [92, 114]
  else if b < 32 then [92, 117, 48, 48, hexDigit (b / 16), hexDigit (b % 16)]
  else [b]

/-- Escaped string content. -/
def escBytes : Bytes → Bytes
  | [] => []
  | b :: l => escByte b ++ escBytes l

/-- Decimal digits (ASCII) of a natural number, most significant first. -/
def natDigits (n : Nat) : Bytes :=
  if n < 10 then [48 + n] else natDigits (n / 10) ++ [48 + n % 10]

/-- Number of decimal digits. -/
def numDigits (n : Nat) : Nat :=
  if n < 10 then 1 else numDigits (n / 10) + 1

/-- serde's printing of an integer-backed number. -/
def printInt (n : Int) : Bytes :=
  if n < 0 then 45 :: natDigits n.natAbs else natDigits n.toNat

mutual

/-- `Value::to_string`: compact JSON bytes.  (`fnum` is printed as an
integer-part stand-in; it is excluded from `canonV` and from every
serialization theorem, since `f64` formatting is floating point.) -/
def printV : Json → Bytes
  | .null => [110, 117, 108, 108]
  | .bool true => [116, 114, 117, 101]
  | .bool false => [102, 97, 108, 115, 101]
  | .num n => printInt n
  | .fnum q => printInt ⌊q⌋
  | .str s => 34 :: (escBytes s ++ [34])
  | .arr es => 91 :: printElems es
  | .obj ms => 123 :: printMembers ms

/-- Elements of a non-empty array, comma-separated, closed by `]`; `[]` for
the empty array. -/
def printElems : List Json → Bytes
  | [] => [93]
  | [e] => printV e ++ [93]
  | e :: e' :: es => printV e ++ (44 :: printElems (e' :: es))

/-- Members `"key":value`, comma-separated, closed by `}`. -/
def printMembers : List (Bytes × Json) → Bytes
  | [] => [125]
  | [(k, v)] => (34 :: (escBytes k ++ (34 :: 58 :: printV v))) ++ [125]
  | (k, v) :: m :: ms =>
      (34 :: (escBytes k ++ (34 :: 58 :: printV v))) ++
        (44 :: printMembers (m :: ms))

end

/-! ### Parsing (`serde_json::from_slice`)

A recursive-descent parser over bytes, mirroring serde's grammar: optional
whitespace around tokens, the five literals, integers without leading
zeros, escaped strings, arrays, objects.  Numbers are modelled only as
integers: an `f64` literal fails to parse (floating point is outside the
model, see `Json`).  Each parsing function consumes a prefix and returns
the unconsumed tail; `none` is a parse error. -/

/-- JSON whitespace. -/
def isWs (b : Nat) : Bool := b == 32 || b == 9 || b == 10 || b == 13

def skipWs : Bytes → Bytes
  | [] => []
  | b :: l => if isWs b then skipWs l else b :: l

def isDigit (b : Nat) : Bool := 48 ≤ b && b ≤ 57

/-- Head of the list is a digit. -/
def digitHead : Bytes → Bool
  | [] => false
  | b :: _ => isDigit b

/-- Consume leading digits, accumulating their value. -/
def parseDigitsAux (acc : Nat) : Bytes → Nat × Bytes
  | [] => (acc, [])
  | b :: l => if isDigit b then parseDigitsAux (acc * 10 + (b - 48)) l
              else (acc, b :: l)

/-- Parse a natural number: at least one digit, no leading zeros. -/
def parseNat : Bytes → Option (Nat × Bytes)
  | [] => none
  | b :: l =>
      if ¬ isDigit b then none
      else if b = 48 && digitHead l then none
      else some (parseDigitsAux 0 (b :: l))

/-- Parse an integer: optional minus sign, then a natural number. -/
def parseNumber : Bytes → Option (Int × Bytes)
  | [] => none
  | b :: l =>
      if b = 45 then (parseNat l).map (fun p => (-(p.1 : Int), p.2))
      else (parseNat (b :: l)).map (fun p => ((p.1 : Int), p.2))

/-- Value of a hex digit byte. -/
def hexVal (b : Nat) : Option Nat :=
  if 48 ≤ b ∧ b ≤ 57 then some (b - 48)
  else if 97 ≤ b ∧ b ≤ 102 then some (b - 97 + 10)
  else if 65 ≤ b ∧ b ≤ 70 then some (b - 65 + 10)
  else none

/-- UTF-8 bytes of a BMP code point (what a `\uXXXX` escape denotes). -/
def utf8Enc (cp : Nat) : Bytes :=
  if cp < 128 then [cp]
  else if cp < 2048 then [192 + cp / 64, 128 + cp % 64]
  else [224 + cp / 4096, 128 + cp / 64 % 64, 128 + cp % 64]

/-- Short escape characters: the byte each denotes, if any. -/
def escCharVal (e : Nat) : Option Nat :=
  if e = 34 then some 34
  else if e = 92 then some 92
  else if e = 47 then some 47
  else if e = 98 then some 8
  else if e = 102 then some 12
  else if e = 110 then some 10
  else if e = 114 then some 13
  else if e = 116 then some 9
  else none

/-- Parse string content after the opening quote, up to and including the
closing quote; returns the unescaped content bytes and the tail.  Raw
control bytes are rejected, as serde rejects them. -/
def parseStrAux : Bytes → Option (Bytes × Bytes)
  | [] => none
  | b :: l =>
      if b = 34 then some ([], l)
      else if b = 92 then
        match l with
        | [] => none
        | 117 :: h1 :: h2 :: h3 :: h4 :: l'' =>
            (hexVal h1).bind fun v1 =>
              (hexVal h2).bind fun v2 =>
                (hexVal h3).bind fun v3 =>
                  (hexVal h4).bind fun v4 =>
                    (parseStrAux l'').map fun p =>
                      (utf8Enc (v1 * 4096 + v2 * 256 + v3 * 16 + v4) ++ p.1,
                       p.2)
        | e :: l' =>
            (escCharVal e).bind fun c =>
              (parseStrAux l').map fun p => (c :: p.1, p.2)
      else if b < 32 then none
      else (parseStrAux l).map fun p => (b :: p.1, p.2)
  termination_by l => l.length
  decreasing_by all_goals simp_arith [List.length]

mutual

/-- Parse one JSON value (prefix); `fuel` bounds the recursion depth and is
in surplus whenever it exceeds the nesting structure of the input. -/
def parseVal : Nat → Bytes → Option (Json × Bytes)
  | 0, _ => none
  | fuel + 1, l =>
      match skipWs l with
      | [] => none
      | b :: r =>
          if b = 110 then
            match r with
            | 117 :: 108 :: 108 :: r' => some (.null, r')
            | _ => none
          else if b = 116 then
            match r with
            | 114 :: 117 :: 101 :: r' => some (.bool true, r')
            | _ => none
          else if b = 102 then
            match r with
            | 97 :: 108 :: 115 :: 101 :: r' => some (.bool false, r')
            | _ => none
          else if b = 34 then
            (parseStrAux r).map (fun p => (.str p.1, p.2))
          else if b = 91 then
            match skipWs r with
            | 93 :: r' => some (.arr [], r')
            | r2 => (parseElems fuel r2).map (fun p => (.arr p.1, p.2))
          else if b = 123 then
            match skipWs r with
            | 125 :: r' => some (.obj [], r')
            | r2 => (parseMembers fuel r2).map (fun p => (.obj p.1, p.2))
          else if b = 45 || isDigit b then
            (parseNumber (b :: r)).map (fun p => (.num p.1, p.2))
          else none

/-- Parse the elements of a non-empty array, including the closing `]`. -/
def parseElems : Nat → Bytes → Option (List Json × Bytes)
  | 0, _ => none
  | fuel + 1, l => do
      let (v, r) ← parseVal fuel l
      match skipWs r with
      | 44 :: r' => do
          let (es, r'') ← parseElems fuel r'
          some (v :: es, r'')
      | 93 :: r' => some ([v], r')
      | _ => none

/-- Parse the members of a non-empty object, including the closing `}`. -/
def parseMembers : Nat → Bytes → Option (List (Bytes × Json) × Bytes)
  | 0, _ => none
  | fuel + 1, l =>
      match skipWs l with
      | 34 :: r => do
          let (k, r1) ← parseStrAux r
          match skipWs r1 with
          | 58 :: r2 => do
              let (v, r3) ← parseVal fuel r2
              match skipWs r3 with
              | 44 :: r4 => do
                  let (ms, r5) ← parseMembers fuel r4
                  some ((k, v) :: ms, r5)
              | 125 :: r4 => some ([(k, v)], r4)
              | _ => none
          | _ => none
      | _ => none

end

/-- `serde_json::from_slice`: parse a whole byte slice as one JSON value
(ambient whitespace allowed, trailing garbage rejected). -/
def jsonFromSlice (l : Bytes) : Option Json :=
  match parseVal (l.length + 1) l with
  | some (v, r) => if skipWs r = [] then some v else none
  | none => none

/-! ### The printer and the parser are inverse

The development follows the usual prefix-codec discipline: every lemma has
the shape `parse (print v ++ rest) = some (v, rest)`.
-/

theorem parseDigitsAux_no_digit (acc : Nat) (l : Bytes)
    (h : digitHead l = false) : parseDigitsAux acc l = (acc, l) := by
  cases l with
  | nil => rfl
  | cons b t =>
      simp only [digitHead] at h
      simp [parseDigitsAux, h]

theorem numDigits_pos (m : Nat) : 1 ≤ numDigits m := by
  rw [numDigits]
  split_ifs with h
  · omega
  · omega

theorem parseDigitsAux_natDigits :
    ∀ (m acc : Nat) (rest : Bytes),
      parseDigitsAux acc (natDigits m ++ rest) =
        parseDigitsAux (acc * 10 ^ numDigits m + m) rest := by
  intro m
  induction m using natDigits.induct with
  | case1 m hm =>
      intro acc rest
      rw [natDigits, if_pos hm, numDigits, if_pos hm]
      have hd : isDigit (48 + m) = true := by
        simp only [isDigit, Bool.and_eq_true, decide_eq_true_eq]
        omega
      simp only [List.cons_append, List.nil_append, parseDigitsAux, hd,
        if_true, pow_one]
      congr 1
      omega
  | case2 m hm ih =>
      intro acc rest
      rw [natDigits, if_neg hm, numDigits, if_neg hm]
      have hd : isDigit (48 + m % 10) = true := by
        simp only [isDigit, Bool.and_eq_true, decide_eq_true_eq]
        omega
      rw [List.append_assoc, List.cons_append, List.nil_append, ih]
      simp only [parseDigitsAux, hd, if_true]
      congr 1
      rw [pow_succ, ← mul_assoc]
      omega

theorem natDigits_head (m : Nat) :
    ∃ d t, natDigits m = d :: t ∧ 48 ≤ d ∧ d ≤ 57 ∧ (1 ≤ m → d ≠ 48) := by
  induction m using natDigits.induct with
  | case1 m hm =>
      refine ⟨48 + m, [], by rw [natDigits, if_pos hm], by omega, by omega, ?_⟩
      omega
  | case2 m hm ih =>
      obtain ⟨d, t, hdt, h1, h2, h3⟩ := ih
      refine ⟨d, t ++ [48 + m % 10], ?_, h1, h2, fun _ => h3 (by omega)⟩
      rw [natDigits, if_neg hm, hdt, List.cons_append]

theorem parseNat_natDigits (m : Nat) (rest : Bytes)
    (h : digitHead rest = false) :
    parseNat (natDigits m ++ rest) = some (m, rest) := by
  obtain ⟨d, t, hdt, h1, h2, h3⟩ := natDigits_head m
  have hdig : isDigit d = true := by
    simp only [isDigit, Bool.and_eq_true, decide_eq_true_eq]; omega
  rw [hdt, List.cons_append, parseNat]
  simp only [hdig, Bool.not_true, if_false, Bool.false_eq_true, not_false_iff,
    if_neg, reduceIte]
  have hzero : (decide (d = 48) && digitHead (t ++ rest)) = false := by
    by_cases hm : 1 ≤ m
    · simp [h3 hm]
    · have : m = 0 := by omega
      subst this
      rw [natDigits] at hdt
      simp only [if_pos (by omega : (0:Nat) < 10)] at hdt
      cases hdt
      simp [h]
  have hcond : ¬ ((decide (d = 48) && digitHead (t ++ rest)) = true) := by
    rw [hzero]; simp
  rw [if_neg hcond, ← List.cons_append, ← hdt, parseDigitsAux_natDigits]
  simp [parseDigitsAux_no_digit _ _ h]

theorem parseNumber_printInt (n : Int) (rest : Bytes)
    (h : digitHead rest = false) :
    parseNumber (printInt n ++ rest) = some (n, rest) := by
  by_cases hn : n < 0
  · rw [printInt, if_pos hn, List.cons_append, parseNumber, if_pos rfl,
      parseNat_natDigits _ _ h]
    simp only [Option.map_some', Option.some.injEq, Prod.mk.injEq, and_true]
    omega
  · rw [printInt, if_neg hn]
    obtain ⟨d, t, hdt, h1, h2, -⟩ := natDigits_head n.toNat
    rw [hdt, List.cons_append, parseNumber, if_neg (by omega : ¬ d = 45),
      ← List.cons_append, ← hdt, parseNat_natDigits _ _ h]
    simp only [Option.map_some', Option.some.injEq, Prod.mk.injEq, and_true]
    omega

theorem hexVal_hexDigit : ∀ n < 16, hexVal (hexDigit n) = some n := by decide

theorem parseStrAux_escBytes :
    ∀ (s rest : Bytes), bytesOk s = true →
      parseStrAux (escBytes s ++ (34 :: rest)) = some (s, rest) := by
  intro s
  induction s with
  | nil =>
      intro rest _
      simp only [escBytes, List.nil_append]
      rw [parseStrAux.eq_def]
      simp
  | cons b t ih =>
      intro rest h
      simp only [bytesOk, Bool.and_eq_true, decide_eq_true_eq] at h
      obtain ⟨hb, ht⟩ := h
      have iht := ih rest ht
      simp only [escBytes, List.append_assoc]
      by_cases h34 : b = 34
      · subst h34
        simp [escByte, parseStrAux, escCharVal, iht]
      · by_cases h92 : b = 92
        · subst h92
          simp [escByte, parseStrAux, escCharVal, iht]
        · by_cases h8 : b = 8
          · subst h8; simp [escByte, parseStrAux, escCharVal, iht]
          · by_cases h9 : b = 9
            · subst h9; simp [escByte, parseStrAux, escCharVal, iht]
            · by_cases h10 : b = 10
              · subst h10; simp [escByte, parseStrAux, escCharVal, iht]
              · by_cases h12 : b = 12
                · subst h12; simp [escByte, parseStrAux, escCharVal, iht]
                · by_cases h13 : b = 13
                  · subst h13; simp [escByte, parseStrAux, escCharVal, iht]
                  · by_cases h32 : b < 32
                    · have e1 : hexVal (hexDigit (b / 16)) = some (b / 16) :=
                        hexVal_hexDigit _ (by omega)
                      have e2 : hexVal (hexDigit (b % 16)) = some (b % 16) :=
                        hexVal_hexDigit _ (by omega)
                      have eu : utf8Enc (b / 16 * 16 + b % 16) = [b] := by
                        have : b / 16 * 16 + b % 16 = b := by omega
                        rw [this, utf8Enc, if_pos (by omega)]
                      simp only [escByte, if_neg h34, if_neg h92, if_neg h8,
                        if_neg h9, if_neg h10, if_neg h12, if_neg h13,
                        if_pos h32, List.cons_append, List.nil_append]
                      rw [parseStrAux.eq_def]
                      simp only [reduceIte]
                      simp [show hexVal 48 = some 0 from rfl, e1, e2, iht, eu]
                    · simp only [escByte, if_neg h34, if_neg h92, if_neg h8,
                        if_neg h9, if_neg h10, if_neg h12, if_neg h13,
                        if_neg h32, List.cons_append, List.nil_append]
                      rw [parseStrAux.eq_def]
                      simp [h34, h92, h32, iht]

mutual

/-- Fuel sufficient for `parseVal` to parse the printed form of a value. -/
def needV : Json → Nat
  | .null => 1
  | .bool _ => 1
  | .num _ => 1
  | .fnum _ => 1
  | .str _ => 1
  | .arr es => needL es + 1
  | .obj ms => needM ms + 1

def needL : List Json → Nat
  | [] => 0
  | e :: es => max (needV e) (needL es) + 1

def needM : List (Bytes × Json) → Nat
  | [] => 0
  | (_, v) :: ms => max (needV v) (needM ms) + 1

end

theorem needV_pos (v : Json) : 1 ≤ needV v := by
  cases v <;> simp [needV]

/-- After a complete printed value the input continues with a delimiter (or
ends): what the printer guarantees at every recursive position. -/
def delimOk : Bytes → Bool
  | [] => true
  | b :: _ => b == 44 || b == 93 || b == 125

theorem digitHead_of_delimOk (l : Bytes) (h : delimOk l = true) :
    digitHead l = false := by
  cases l with
  | nil => rfl
  | cons b t =>
      simp only [delimOk, Bool.or_eq_true, beq_iff_eq] at h
      have hb : b = 44 ∨ b = 93 ∨ b = 125 := by tauto
      simp only [digitHead, isDigit]
      rcases hb with h | h | h <;> subst h <;> decide

theorem skipWs_not_ws (b : Nat) (l : Bytes) (h : isWs b = false) :
    skipWs (b :: l) = b :: l := by
  simp [skipWs, h]

theorem natDigits_ne_nil (m : Nat) : natDigits m ≠ [] := by
  obtain ⟨d, t, hdt, -, -, -⟩ := natDigits_head m
  simp [hdt]

theorem printInt_head (n : Int) :
    ∃ b t, printInt n = b :: t ∧ 45 ≤ b ∧ b ≤ 57 ∧ b ≠ 46 ∧ b ≠ 47 := by
  rw [printInt]
  split_ifs with h
  · exact ⟨45, _, rfl, by omega, by omega, by omega, by omega⟩
  · obtain ⟨d, t, hdt, h1, h2, -⟩ := natDigits_head n.toNat
    exact ⟨d, t, hdt, by omega, by omega, by omega, by omega⟩

theorem printV_head (v : Json) :
    ∃ b t, printV v = b :: t ∧ isWs b = false ∧ b ≠ 93 := by
  cases v with
  | null => exact ⟨110, _, rfl, by decide, by decide⟩
  | bool b => cases b with
      | true => exact ⟨116, _, rfl, by decide, by decide⟩
      | false => exact ⟨102, _, rfl, by decide, by decide⟩
  | num n =>
      obtain ⟨b, t, hbt, h1, h2, -, -⟩ := printInt_head n
      refine ⟨b, t, hbt, ?_, by omega⟩
      simp only [isWs]
      simp only [Bool.or_eq_false_iff, beq_eq_false_iff_ne]
      omega
  | fnum q =>
      obtain ⟨b, t, hbt, h1, h2, -, -⟩ := printInt_head ⌊q⌋
      refine ⟨b, t, hbt, ?_, by omega⟩
      simp only [isWs]
      simp only [Bool.or_eq_false_iff, beq_eq_false_iff_ne]
      omega
  | str s => exact ⟨34, _, rfl, by decide, by decide⟩
  | arr es => exact ⟨91, _, rfl, by decide, by decide⟩
  | obj ms => exact ⟨123, _, rfl, by decide, by decide⟩

theorem printElems_cons (e : Json) (es : List Json) :
    ∃ X, printElems (e :: es) = printV e ++ X := by
  cases es with
  | nil => exact ⟨[93], rfl⟩
  | cons e' es' => exact ⟨44 :: printElems (e' :: es'), rfl⟩

theorem parseVal_zero (v : Json) (l : Bytes) : parseVal 0 l = none := rfl

mutual

theorem parseVal_printV :
    ∀ (fuel : Nat) (v : Json) (rest : Bytes), canonV v = true →
      needV v ≤ fuel → delimOk rest = true →
      parseVal fuel (printV v ++ rest) = some (v, rest)
  | 0, v, rest => by
      intro _ hf _
      exact absurd hf (by have := needV_pos v; omega)
  | fuel + 1, v, rest => by
      intro hc hf hd
      cases v with
      | null => simp [printV, parseVal, skipWs, isWs]
      | bool b => cases b <;> simp [printV, parseVal, skipWs, isWs]
      | fnum q => simp [canonV] at hc
      | num n =>
          obtain ⟨b, t, hbt, h1, h2, h3, h4⟩ := printInt_head n
          have hws : isWs b = false := by
            simp only [isWs, Bool.or_eq_false_iff, beq_eq_false_iff_ne]
            omega
          simp only [printV, hbt, List.cons_append]
          rw [parseVal, skipWs_not_ws _ _ hws]
          have hdis : (decide (b = 45) || isDigit b) = true := by
            simp only [isDigit, Bool.or_eq_true, decide_eq_true_eq,
              Bool.and_eq_true]
            omega
          simp only [if_neg (by omega : ¬ b = 110),
            if_neg (by omega : ¬ b = 116), if_neg (by omega : ¬ b = 102),
            if_neg (by omega : ¬ b = 34), if_neg (by omega : ¬ b = 91),
            if_neg (by omega : ¬ b = 123), hdis, if_true]
          rw [← List.cons_append, ← hbt,
            parseNumber_printInt n rest (digitHead_of_delimOk rest hd)]
          rfl
      | str s =>
          simp only [canonV] at hc
          simp only [printV, List.cons_append, List.append_assoc,
            List.singleton_append]
          rw [parseVal, skipWs_not_ws _ _ (by decide)]
          simp only [List.nil_append]
          rw [parseStrAux_escBytes s rest hc]
          rfl
      | arr es =>
          simp only [canonV] at hc
          simp only [needV] at hf
          simp only [printV, List.cons_append]
          rw [parseVal, skipWs_not_ws _ _ (by decide)]
          cases es with
          | nil =>
              simp only [printElems, List.cons_append, List.nil_append]
              rfl
          | cons e es' =>
              obtain ⟨X, hX⟩ := printElems_cons e es'
              obtain ⟨hb, ht, hbt, hws, h93⟩ := printV_head e
              have hpe : parseElems fuel (hb :: (ht ++ (X ++ rest))) =
                  some (e :: es', rest) := by
                have := parseElems_printElems fuel e es' rest hc (by omega) hd
                rw [hX, hbt] at this
                simpa [List.cons_append, List.append_assoc] using this
              rw [hX, hbt]
              simp only [List.cons_append, List.append_assoc]
              rw [skipWs_not_ws _ _ hws]
              norm_num
              split
              · rename_i r' heq
                injection heq with h1 h2
                omega
              · rw [hpe]
                rfl
      | obj ms =>
          simp only [canonV, Bool.and_eq_true] at hc
          obtain ⟨hsorted, hcm⟩ := hc
          simp only [needV] at hf
          simp only [printV, List.cons_append]
          rw [parseVal, skipWs_not_ws _ _ (by decide)]
          cases ms with
          | nil =>
              simp only [printMembers, List.cons_append, List.nil_append]
              rfl
          | cons kv ms' =>
              obtain ⟨k, v⟩ := kv
              have hpm : ∃ Y, printMembers ((k, v) :: ms') = 34 :: Y := by
                cases ms' with
                | nil => exact ⟨_, rfl⟩
                | cons m2 ms2 => exact ⟨_, rfl⟩
              obtain ⟨Y, hY⟩ := hpm
              have hpms : parseMembers fuel (34 :: (Y ++ rest)) =
                  some ((k, v) :: ms', rest) := by
                have := parseMembers_printMembers fuel k v ms' rest hcm
                  (by omega) hd
                rw [hY] at this
                simpa [List.cons_append] using this
              rw [hY]
              simp only [List.cons_append]
              rw [skipWs_not_ws _ _ (by decide)]
              norm_num
              exact hpms

theorem parseElems_printElems :
    ∀ (fuel : Nat) (e : Json) (es : List Json) (rest : Bytes),
      canonL (e :: es) = true → needL (e :: es) ≤ fuel →
      delimOk rest = true →
      parseElems fuel (printElems (e :: es) ++ rest) = some (e :: es, rest)
  | 0, e, es, rest => by
      intro _ hf _
      simp only [needL] at hf
      omega
  | fuel + 1, e, es, rest => by
      intro hc hf hd
      simp only [canonL, Bool.and_eq_true] at hc
      obtain ⟨hce, hces⟩ := hc
      simp only [needL] at hf
      cases es with
      | nil =>
          simp only [printElems, List.append_assoc, List.singleton_append]
          rw [parseElems,
            parseVal_printV fuel e (93 :: rest) hce (by omega) (by simp [delimOk])]
          simp only [Option.bind_eq_bind, Option.some_bind]
          rw [skipWs_not_ws _ _ (by decide)]
      | cons e2 es' =>
          simp only [printElems, List.append_assoc, List.cons_append]
          rw [parseElems,
            parseVal_printV fuel e (44 :: (printElems (e2 :: es') ++ rest))
              hce (by omega) (by simp [delimOk])]
          simp only [Option.bind_eq_bind, Option.some_bind]
          rw [skipWs_not_ws _ _ (by decide)]
          simp only []
          rw [parseElems_printElems fuel e2 es' rest hces (by omega) hd]
          rfl

theorem parseMembers_printMembers :
    ∀ (fuel : Nat) (k : Bytes) (v : Json) (ms : List (Bytes × Json))
      (rest : Bytes),
      canonM ((k, v) :: ms) = true → needM ((k, v) :: ms) ≤ fuel →
      delimOk rest = true →
      parseMembers fuel (printMembers ((k, v) :: ms) ++ rest) =
        some ((k, v) :: ms, rest)
  | 0, k, v, ms, rest => by
      intro _ hf _
      simp only [needM] at hf
      omega
  | fuel + 1, k, v, ms, rest => by
      intro hc hf hd
      simp only [canonM, Bool.and_eq_true] at hc
      obtain ⟨⟨hk, hcv⟩, hcms⟩ := hc
      simp only [needM] at hf
      cases ms with
      | nil =>
          simp only [printMembers, List.append_assoc, List.cons_append,
            List.singleton_append, List.nil_append]
          rw [parseMembers, skipWs_not_ws _ _ (by decide)]
          simp only []
          rw [parseStrAux_escBytes k (58 :: (printV v ++ (125 :: rest))) hk]
          simp only [Option.bind_eq_bind, Option.some_bind]
          rw [skipWs_not_ws _ _ (by decide)]
          simp only []
          rw [parseVal_printV fuel v (125 :: rest) hcv (by omega)
            (by simp [delimOk])]
          simp only [Option.bind_eq_bind, Option.some_bind]
          rw [skipWs_not_ws _ _ (by decide)]
      | cons m2 ms' =>
          obtain ⟨k2, v2⟩ := m2
          simp only [printMembers, List.append_assoc, List.cons_append,
            List.singleton_append, List.nil_append]
          rw [parseMembers, skipWs_not_ws _ _ (by decide)]
          simp only []
          rw [parseStrAux_escBytes k
            (58 :: (printV v ++ (44 :: (printMembers ((k2, v2) :: ms') ++ rest))))
            hk]
          simp only [Option.bind_eq_bind, Option.some_bind]
          rw [skipWs_not_ws _ _ (by decide)]
          simp only []
          rw [parseVal_printV fuel v
            (44 :: (printMembers ((k2, v2) :: ms') ++ rest)) hcv (by omega)
            (by simp [delimOk])]
          simp only [Option.bind_eq_bind, Option.some_bind]
          rw [skipWs_not_ws _ _ (by decide)]
          simp only []
          rw [parseMembers_printMembers fuel k2 v2 ms' rest hcms (by omega) hd]
          rfl

end

mutual

theorem needV_le : ∀ v : Json, needV v ≤ (printV v).length
  | .null => by simp [needV, printV]
  | .bool b => by cases b <;> simp [needV, printV]
  | .num n => by
      obtain ⟨b, t, hbt, -, -, -, -⟩ := printInt_head n
      simp [needV, printV, hbt]
  | .fnum q => by
      obtain ⟨b, t, hbt, -, -, -, -⟩ := printInt_head ⌊q⌋
      simp [needV, printV, hbt]
  | .str s => by simp [needV, printV]
  | .arr es => by
      have := needL_le es
      simp only [needV, printV, List.length_cons]
      omega
  | .obj ms => by
      have := needM_le ms
      simp only [needV, printV, List.length_cons]
      omega

theorem needL_le : ∀ es : List Json, needL es ≤ (printElems es).length
  | [] => by simp [needL, printElems]
  | [e] => by
      have := needV_le e
      simp only [needL, needL.eq_1, printElems, List.length_append,
        List.length_cons, List.length_nil]
      omega
  | e :: e2 :: es' => by
      have h1 := needV_le e
      have h2 := needL_le (e2 :: es')
      rw [needL, printElems]
      simp only [List.length_append, List.length_cons]
      omega

theorem needM_le : ∀ ms : List (Bytes × Json), needM ms ≤ (printMembers ms).length
  | [] => by simp [needM, printMembers]
  | [(k, v)] => by
      have := needV_le v
      simp only [needM, needM.eq_1, printMembers, List.length_append,
        List.length_cons, List.length_nil]
      omega
  | (k, v) :: m2 :: ms' => by
      have h1 := needV_le v
      have h2 := needM_le (m2 :: ms')
      rw [needM, printMembers]
      simp only [List.length_append, List.length_cons]
      omega

end

/-- Parsing the printed form of a canonical value gives the value back:
`serde_json::from_slice(v.to_string()) == Ok(v)`. -/
theorem jsonFromSlice_printV (v : Json) (h : canonV v = true) :
    jsonFromSlice (printV v) = some v := by
  have h1 : parseVal ((printV v).length + 1) (printV v ++ []) =
      some (v, []) :=
    parseVal_printV _ v [] h (le_trans (needV_le v) (by omega)) rfl
  rw [List.append_nil] at h1
  rw [jsonFromSlice, h1]
  rfl

theorem bytesOk_append (l1 l2 : Bytes) :
    bytesOk (l1 ++ l2) = (bytesOk l1 && bytesOk l2) := by
  induction l1 with
  | nil => simp [bytesOk]
  | cons b t ih => simp [bytesOk, ih, Bool.and_assoc]

theorem hexDigit_lt (n : Nat) (h : n < 16) : hexDigit n < 256 := by
  rw [hexDigit]
  split_ifs <;> omega

theorem bytesOk_escByte (b : Nat) (h : b < 256) :
    bytesOk (escByte b) = true := by
  rw [escByte]
  split_ifs with h1 h2 h3 h4 h5 h6 h7 h8
  · rfl
  · rfl
  · rfl
  · rfl
  · rfl
  · rfl
  · rfl
  · have e1 := hexDigit_lt (b / 16) (by omega)
    have e2 := hexDigit_lt (b % 16) (by omega)
    simp only [bytesOk, Bool.and_eq_true, decide_eq_true_eq]
    refine ⟨by omega, by omega, by omega, by omega, by omega, by omega, trivial⟩
  · simp only [bytesOk, Bool.and_eq_true, decide_eq_true_eq]
    exact ⟨h, trivial⟩

theorem bytesOk_escBytes (s : Bytes) (h : bytesOk s = true) :
    bytesOk (escBytes s) = true := by
  induction s with
  | nil => rfl
  | cons b t ih =>
      simp only [bytesOk, Bool.and_eq_true, decide_eq_true_eq] at h
      simp only [escBytes, bytesOk_append, Bool.and_eq_true]
      exact ⟨bytesOk_escByte b h.1, ih h.2⟩

theorem bytesOk_natDigits (m : Nat) : bytesOk (natDigits m) = true := by
  induction m using natDigits.induct with
  | case1 m hm => simp [natDigits, hm, bytesOk]; omega
  | case2 m hm ih =>
      rw [natDigits, if_neg hm]
      simp only [bytesOk_append, ih, Bool.true_and, bytesOk]
      simp only [Bool.and_true, decide_eq_true_eq]
      omega

theorem bytesOk_printInt (n : Int) : bytesOk (printInt n) = true := by
  rw [printInt]
  split_ifs
  · simp [bytesOk, bytesOk_natDigits]
  · exact bytesOk_natDigits _

mutual

theorem bytesOk_printV : ∀ v : Json, canonV v = true →
    bytesOk (printV v) = true
  | .null => by intro _; rfl
  | .bool b => by intro _; cases b <;> rfl
  | .num n => by intro _; exact bytesOk_printInt n
  | .fnum q => by intro h; simp [canonV] at h
  | .str s => by
      intro h
      simp only [canonV] at h
      simp [printV, bytesOk, bytesOk_append, bytesOk_escBytes s h]
  | .arr es => by
      intro h
      simp only [canonV] at h
      simp [printV, bytesOk, bytesOk_printElems es h]
  | .obj ms => by
      intro h
      simp only [canonV, Bool.and_eq_true] at h
      simp [printV, bytesOk, bytesOk_printMembers ms h.2]

theorem bytesOk_printElems : ∀ es : List Json, canonL es = true →
    bytesOk (printElems es) = true
  | [] => by intro _; rfl
  | [e] => by
      intro h
      simp only [canonL, Bool.and_eq_true] at h
      simp [printElems, bytesOk_append, bytesOk_printV e h.1, bytesOk]
  | e :: e2 :: es' => by
      intro h
      simp only [canonL, Bool.and_eq_true] at h
      obtain ⟨h1, h2⟩ := h
      simp [printElems, bytesOk_append, bytesOk_printV e h1, bytesOk,
        bytesOk_printElems (e2 :: es') (by simp [canonL, h2])]

theorem bytesOk_printMembers : ∀ ms : List (Bytes × Json), canonM ms = true →
    bytesOk (printMembers ms) = true
  | [] => by intro _; rfl
  | [(k, v)] => by
      intro h
      simp only [canonM, Bool.and_eq_true] at h
      simp [printMembers, bytesOk_append, bytesOk, bytesOk_escBytes k h.1.1,
        bytesOk_printV v h.1.2]
  | (k, v) :: (k2, v2) :: ms' => by
      intro h
      simp only [canonM, Bool.and_eq_true] at h
      obtain ⟨⟨hk, hv⟩, hms⟩ := h
      simp [printMembers, bytesOk_append, bytesOk, bytesOk_escBytes k hk,
        bytesOk_printV v hv,
        bytesOk_printMembers ((k2, v2) :: ms') (by simp [canonM, hms])]

end

/-! ## The propagation codec (`src/propagation.rs`)

`Propagation::unmarshal_trace_context` / `marshal_trace_context`.  The Rust
decode path has no error channel: on an unsupported version it silently
returns an all-empty `Propagation` (`// TODO: this should be an error`), and
it panics — `unimplemented!()`, a failed `.unwrap()`, or an out-of-bounds
`ver[1]` — on the invalid continuation state, on bad base64 and on bad
JSON.  `DecodeResult.panic` marks those executions.
-/

def PROPAGATION_VERSION : Nat := 1

/-- `Propagation` (propagation.rs): all the information of a payload header. -/
structure Propagation where
  trace_id : Bytes
  parent_id : Bytes
  dataset : Bytes
  trace_context : Json

/-- Outcome of `unmarshal_trace_context`: the function either returns a
`Propagation` or aborts the process. -/
inductive DecodeResult where
  | ok : Propagation → DecodeResult
  | panic : DecodeResult

/-- Intermediate state of `unmarshal_trace_context_v1`'s clause loop: the
four mutable locals. -/
structure V1State where
  trace_id : Bytes
  parent_id : Bytes
  dataset : Bytes
  context : Bytes

/-- One iteration of the clause loop: `clause.splitn(2, '=')`, then the
`match kv[0]` — each recognized arm reads `kv[1]`, which is out of bounds
(`none`) when the clause has no `=`; unrecognized keys are skipped. -/
def applyClause (st : V1State) (clause : Bytes) : Option V1State :=
  match splitOnce 61 clause with
  | (k, some v) =>
      if k = ascii "trace_id" then some { st with trace_id := v }
      else if k = ascii "parent_id" then some { st with parent_id := v }
      else if k = ascii "dataset" then some { st with dataset := v }
      else if k = ascii "context" then some { st with context := v }
      else some st
  | (k, none) =>
      if k = ascii "trace_id" ∨ k = ascii "parent_id" ∨
          k = ascii "dataset" ∨ k = ascii "context" then none
      else some st

/-- `Propagation::unmarshal_trace_context_v1`. -/
def Propagation.unmarshal_trace_context_v1 (header : Bytes) : DecodeResult :=
  match (splitAll 44 header).foldlM applyClause ⟨[], [], [], []⟩ with
  | none => .panic
  | some st =>
      if st.trace_id = [] ∧ st.parent_id ≠ [] then .panic
      else
        match b64Decode st.context with
        | none => .panic
        | some bytes =>
            match jsonFromSlice bytes with
            | none => .panic
            | some ctx => .ok ⟨st.trace_id, st.parent_id, st.dataset, ctx⟩

/-- `Propagation::unmarshal_trace_context`: split off the version at the
first `;`; only version `1` is understood, anything else silently yields an
all-empty `Propagation`; a header with no `;` at all panics on `ver[1]` when
its whole text is `1`. -/
def Propagation.unmarshal_trace_context (header : Bytes) : DecodeResult :=
  match splitOnce 59 header with
  | (pre, some rest) =>
      if pre = ascii "1" then Propagation.unmarshal_trace_context_v1 rest
      else .ok ⟨[], [], [], .obj []⟩
  | (pre, none) =>
      if pre = ascii "1" then .panic
      else .ok ⟨[], [], [], .obj []⟩

/-- `Propagation::marshal_trace_context`: deterministic, total; always
version `1`; the `dataset` clause appears (with its trailing comma) only
when `dataset` is non-empty. -/
def Propagation.marshal_trace_context (p : Propagation) : Bytes :=
  let dataset :=
    if p.dataset ≠ [] then ascii "dataset=" ++ p.dataset ++ [44] else []
  natDigits PROPAGATION_VERSION ++ [59] ++
    ascii "trace_id=" ++ p.trace_id ++ [44] ++
    ascii "parent_id=" ++ p.parent_id ++ [44] ++
    dataset ++ ascii "context=" ++ b64Encode (printV p.trace_context)

theorem ascii_trace_id_eq : ascii "trace_id=" = ascii "trace_id" ++ [61] := by
  decide

theorem ascii_parent_id_eq : ascii "parent_id=" = ascii "parent_id" ++ [61] := by
  decide

theorem ascii_dataset_eq : ascii "dataset=" = ascii "dataset" ++ [61] := by
  decide

theorem ascii_context_eq : ascii "context=" = ascii "context" ++ [61] := by
  decide

theorem applyClause_trace_id (st : V1State) (v : Bytes) :
    applyClause st (ascii "trace_id=" ++ v) = some { st with trace_id := v } := by
  rw [ascii_trace_id_eq, List.append_assoc, List.singleton_append,
    applyClause, splitOnce_append _ _ _ (by decide)]
  simp

theorem applyClause_parent_id (st : V1State) (v : Bytes) :
    applyClause st (ascii "parent_id=" ++ v) = some { st with parent_id := v } := by
  rw [ascii_parent_id_eq, List.append_assoc, List.singleton_append,
    applyClause, splitOnce_append _ _ _ (by decide)]
  simp [if_neg (by decide : ¬ ascii "parent_id" = ascii "trace_id")]

theorem applyClause_dataset (st : V1State) (v : Bytes) :
    applyClause st (ascii "dataset=" ++ v) = some { st with dataset := v } := by
  rw [ascii_dataset_eq, List.append_assoc, List.singleton_append,
    applyClause, splitOnce_append _ _ _ (by decide)]
  simp [if_neg (by decide : ¬ ascii "dataset" = ascii "trace_id"),
    if_neg (by decide : ¬ ascii "dataset" = ascii "parent_id")]

theorem applyClause_context (st : V1State) (v : Bytes) :
    applyClause st (ascii "context=" ++ v) = some { st with context := v } := by
  rw [ascii_context_eq, List.append_assoc, List.singleton_append,
    applyClause, splitOnce_append _ _ _ (by decide)]
  simp [if_neg (by decide : ¬ ascii "context" = ascii "trace_id"),
    if_neg (by decide : ¬ ascii "context" = ascii "parent_id"),
    if_neg (by decide : ¬ ascii "context" = ascii "dataset")]

theorem not_mem_append {a : Nat} {l1 l2 : Bytes} (h1 : a ∉ l1) (h2 : a ∉ l2) :
    a ∉ l1 ++ l2 := by
  simp [List.mem_append, h1, h2]

/-- Encode-then-decode: for a `Propagation` whose string fields contain no
comma, whose context is canonical, and which is not in the invalid state
(empty `trace_id` with non-empty `parent_id`), decoding the encoded header
returns the value unchanged. -/
theorem unmarshal_marshal (p : Propagation)
    (htid : 44 ∉ p.trace_id) (hpid : 44 ∉ p.parent_id)
    (hds : 44 ∉ p.dataset) (hctx : canonV p.trace_context = true)
    (hval : ¬ (p.trace_id = [] ∧ p.parent_id ≠ [])) :
    Propagation.unmarshal_trace_context p.marshal_trace_context = .ok p := by
  obtain ⟨tid, pid, ds, ctx⟩ := p
  simp only at htid hpid hds hctx hval
  have hB := b64Encode_no_sep (printV ctx) (bytesOk_printV ctx hctx)
  have hBmem : 44 ∉ b64Encode (printV ctx) := fun hm => (hB _ hm).1 rfl
  have hctxclause : 44 ∉ ascii "context=" ++ b64Encode (printV ctx) :=
    not_mem_append (by decide) hBmem
  have hdecode : b64Decode (b64Encode (printV ctx)) = some (printV ctx) :=
    b64Decode_b64Encode _ (bytesOk_printV ctx hctx)
  have hmarshal : Propagation.marshal_trace_context ⟨tid, pid, ds, ctx⟩ =
      [49] ++ 59 ::
        ((ascii "trace_id=" ++ tid) ++ 44 ::
          ((ascii "parent_id=" ++ pid) ++ 44 ::
            ((if ds ≠ [] then ascii "dataset=" ++ ds ++ [44] else []) ++
              (ascii "context=" ++ b64Encode (printV ctx))))) := by
    rw [Propagation.marshal_trace_context]
    simp [PROPAGATION_VERSION, natDigits, List.append_assoc]
  rw [hmarshal, Propagation.unmarshal_trace_context,
    splitOnce_append 59 [49] _ (by decide)]
  simp only []
  rw [if_pos (by decide : ([49] : Bytes) = ascii "1")]
  rw [Propagation.unmarshal_trace_context_v1,
    splitAll_append _ _ _ (not_mem_append (by decide) htid),
    splitAll_append _ _ _ (not_mem_append (by decide) hpid)]
  by_cases hd : ds = []
  · subst hd
    simp only [ne_eq, not_true_eq_false, if_false, List.nil_append,
      reduceIte]
    rw [splitAll_not_mem _ _ hctxclause]
    simp only [List.foldlM_cons, List.foldlM_nil, applyClause_trace_id,
      applyClause_parent_id, applyClause_context, Option.bind_eq_bind,
      Option.some_bind, Option.pure_def]
    have : ¬ (tid = [] ∧ pid ≠ []) := hval
    rw [if_neg this, hdecode]
    simp only []
    rw [jsonFromSlice_printV ctx hctx]
  · simp only [ne_eq, hd, not_false_iff, if_true, List.append_assoc,
      List.singleton_append]
    rw [← List.append_assoc (ascii "dataset=") ds]
    rw [splitAll_append _ _ _ (not_mem_append (by decide) hds),
      splitAll_not_mem _ _ hctxclause]
    simp only [List.foldlM_cons, List.foldlM_nil, applyClause_trace_id,
      applyClause_parent_id, applyClause_dataset, applyClause_context,
      Option.bind_eq_bind, Option.some_bind, Option.pure_def]
    have : ¬ (tid = [] ∧ pid ≠ []) := hval
    rw [if_neg this, hdecode]
    simp only []
    rw [jsonFromSlice_printV ctx hctx]

/-- The clause structure of an encoded header, read back with the split
primitives the decoder uses: the version clause is exactly `1`, and the body
consists of the `trace_id` clause, the `parent_id` clause, the `dataset`
clause only when `dataset` is non-empty, and the `context` clause last. -/
theorem marshal_clause_structure (p : Propagation)
    (htid : 44 ∉ p.trace_id) (hpid : 44 ∉ p.parent_id)
    (hds : 44 ∉ p.dataset) (hctx : canonV p.trace_context = true) :
    ∃ body, splitOnce 59 p.marshal_trace_context = (ascii "1", some body) ∧
      splitAll 44 body =
        [ascii "trace_id=" ++ p.trace_id, ascii "parent_id=" ++ p.parent_id] ++
        (if p.dataset = [] then [] else [ascii "dataset=" ++ p.dataset]) ++
        [ascii "context=" ++ b64Encode (printV p.trace_context)] := by
  obtain ⟨tid, pid, ds, ctx⟩ := p
  simp only at htid hpid hds hctx ⊢
  have hB := b64Encode_no_sep (printV ctx) (bytesOk_printV ctx hctx)
  have hBmem : 44 ∉ b64Encode (printV ctx) := fun hm => (hB _ hm).1 rfl
  have hctxclause : 44 ∉ ascii "context=" ++ b64Encode (printV ctx) :=
    not_mem_append (by decide) hBmem
  have hmarshal : Propagation.marshal_trace_context ⟨tid, pid, ds, ctx⟩ =
      [49] ++ 59 ::
        ((ascii "trace_id=" ++ tid) ++ 44 ::
          ((ascii "parent_id=" ++ pid) ++ 44 ::
            ((if ds ≠ [] then ascii "dataset=" ++ ds ++ [44] else []) ++
              (ascii "context=" ++ b64Encode (printV ctx))))) := by
    rw [Propagation.marshal_trace_context]
    simp [PROPAGATION_VERSION, natDigits, List.append_assoc]
  refine ⟨(ascii "trace_id=" ++ tid) ++ 44 ::
      ((ascii "parent_id=" ++ pid) ++ 44 ::
        ((if ds ≠ [] then ascii "dataset=" ++ ds ++ [44] else []) ++
          (ascii "context=" ++ b64Encode (printV ctx)))), ?_, ?_⟩
  · rw [hmarshal, splitOnce_append 59 [49] _ (by decide)]
    rfl
  · rw [splitAll_append _ _ _ (not_mem_append (by decide) htid),
      splitAll_append _ _ _ (not_mem_append (by decide) hpid)]
    by_cases hd : ds = []
    · subst hd
      simp only [ne_eq, not_true_eq_false, if_false, List.nil_append,
        reduceIte]
      rw [splitAll_not_mem _ _ hctxclause]
      rfl
    · simp only [ne_eq, hd, not_false_iff, if_true, List.append_assoc,
        List.singleton_append, if_neg hd]
      rw [← List.append_assoc (ascii "dataset=") ds]
      rw [splitAll_append _ _ _ (not_mem_append (by decide) hds),
        splitAll_not_mem _ _ hctxclause]
      rfl

/-! ## The Trace/Span core (`src/trace.rs`, `src/lib.rs`)

Shared mutable state is modelled by a heap (`World`): `Arc<Mutex<Span>>`
references become span ids looked up in `World.spans`, the process-wide
trace registry (`BeelineClient.traces`) becomes `World.traces`, and the
transmission sink becomes the accumulating list `World.events`.  Each Rust
method is a function on `World`.  Two abstractions: `Uuid::new_v4` draws
are passed in as explicit fresh identifiers, and a span's `Timer` is the
number `timer_ms` that `timer.finish() as u64` will produce at send time
(real time is not representable).  Rollup sums (`f64`) are exact rationals.
-/

/-- A libhoney event carrier: preset fields plus a sample rate. -/
structure Event where
  fields : List (Bytes × Json)
  sample_rate : Nat
deriving Repr

/-- `Span` (trace.rs): one node of the trace tree. -/
structure Span where
  is_async : Bool
  is_sent : Bool
  is_root : Bool
  children : List Bytes
  ev : Option Event
  span_id : Bytes
  parent_id : Bytes
  rollup_fields : List (Bytes × ℚ)
  timer_ms : Nat
  trace : Option Bytes

/-- `Trace` (trace.rs): trace-level shared state.  `builder_fields` and
`builder_dataset` model the libhoney `Builder` the trace clones events
from. -/
structure Trace where
  builder_fields : List (Bytes × Json)
  builder_dataset : Bytes
  trace_id : Bytes
  parent_id : Bytes
  rollup_fields : List (Bytes × ℚ)
  root_span : Bytes
  trace_level_fields : Json
  child_spans : List (Bytes × Span)

/-- The two configuration hooks (lib.rs `Config`). -/
structure Config where
  sampler_hook : List (Bytes × Json) → Bool × Nat
  presend_hook : List (Bytes × Json) → List (Bytes × Json)

/-- `Config::default()`: always keep with rate 1; presend is a no-op. -/
def defaultConfig : Config :=
  { sampler_hook := fun _ => (true, 1), presend_hook := fun fs => fs }

/-- The whole mutable state reachable from a `Client`. -/
structure World where
  spans : List (Bytes × Span)
  traces : List (Bytes × Trace)
  events : List Event
  config : Config

def Event.add_field (e : Event) (k : Bytes) (v : Json) : Event :=
  { e with fields := insertA e.fields k v }

/-- `Span::add_field`: no-op when the event carrier is absent. -/
def Span.add_field (s : Span) (k : Bytes) (v : Json) : Span :=
  match s.ev with
  | none => s
  | some e => { s with ev := some (e.add_field k v) }

/-- `BTreeMap::insert` on a sorted association list. -/
def objInsert (l : List (Bytes × Json)) (k : Bytes) (v : Json) :
    List (Bytes × Json) :=
  match l with
  | [] => [(k, v)]
  | (k', v') :: rest =>
      if bytesLt k k' then (k, v) :: (k', v') :: rest
      else if k' = k then (k, v) :: rest
      else (k', v') :: objInsert rest k v

/-- `Trace::add_field`: insert into `trace_level_fields` when it is an
object, silently do nothing otherwise (`as_object_mut`). -/
def Trace.add_field (t : Trace) (k : Bytes) (v : Json) : Trace :=
  match t.trace_level_fields with
  | .obj kvs => { t with trace_level_fields := .obj (objInsert kvs k v) }
  | _ => t

/-- `entry(key).or_insert(0.0)` then `+= value`. -/
def addRollup (l : List (Bytes × ℚ)) (k : Bytes) (v : ℚ) :
    List (Bytes × ℚ) :=
  match lookupA l k with
  | some old => insertA l k (old + v)
  | none => insertA l k (0 + v)

/-- `Trace::add_rollup_field`: add to the running sum under `key`. -/
def Trace.add_rollup_field (t : Trace) (k : Bytes) (v : ℚ) : Trace :=
  { t with rollup_fields := addRollup t.rollup_fields k v }

/-- `Trace::remove_child_span`. -/
def Trace.remove_child_span (t : Trace) (sid : Bytes) : Trace :=
  { t with child_spans := removeA t.child_spans sid }

def World.getSpan (w : World) (sid : Bytes) : Option Span :=
  lookupA w.spans sid

def World.updateSpan (w : World) (sid : Bytes) (f : Span → Span) : World :=
  match lookupA w.spans sid with
  | none => w
  | some s => { w with spans := insertA w.spans sid (f s) }

/-- `Client::get_trace`. -/
def World.get_trace (w : World) (tid : Bytes) : Option Trace :=
  lookupA w.traces tid

/-- `Client::remove_child_span_from_trace`: no-op when the trace is gone. -/
def World.remove_child_span_from_trace (w : World) (tid sid : Bytes) : World :=
  match lookupA w.traces tid with
  | none => w
  | some t =>
      { w with traces := insertA w.traces tid (t.remove_child_span sid) }

/-- `Trace::add_field` reached through the registry (the caller holds the
`SafeTrace` and locks it; the model reaches the same object by id). -/
def World.trace_add_field (w : World) (tid k : Bytes) (v : Json) : World :=
  match lookupA w.traces tid with
  | none => w
  | some t => { w with traces := insertA w.traces tid (t.add_field k v) }

/-- `Trace::add_rollup_field` reached through the registry. -/
def World.trace_add_rollup_field (w : World) (tid k : Bytes) (v : ℚ) : World :=
  match lookupA w.traces tid with
  | none => w
  | some t =>
      { w with traces := insertA w.traces tid (t.add_rollup_field k v) }

/-- The `meta.span_type` computation of `Span::final_send`. -/
def Span.span_type (s : Span) : Bytes :=
  if s.is_root then
    if s.parent_id = [] then ascii "root" else ascii "subroot"
  else if s.is_async then ascii "async"
  else if s.children = [] then ascii "leaf"
  else ascii "mid"

/-- First step of `Span::final_send`: merge the owning trace's current
`trace_level_fields`, resolved through the registry using `trace`; a
missing trace, or trace fields that are not an object, merge nothing. -/
def Span.merge_trace_fields (w : World) (s : Span) : Span :=
  match s.trace with
  | some tid =>
      match lookupA w.traces tid with
      | some t =>
          match t.trace_level_fields with
          | .obj kvs =>
              kvs.foldl
                (fun (s : Span) (kv : Bytes × Json) =>
                  s.add_field kv.1 kv.2) s
          | _ => s
      | none => s
  | none => s

/-- Second step of `Span::final_send`: stamp `meta.span_type`, and when the
type is `root` add the span's own `rollup_fields` under `rollup.<name>`
keys. -/
def Span.stamp_span_type (s : Span) : Span :=
  let st := s.span_type
  let s2 := s.add_field (ascii "meta.span_type") (.str st)
  if st = ascii "root" then
    s2.rollup_fields.foldl
      (fun (x : Span) kv =>
        x.add_field (ascii "rollup." ++ kv.1) (.fnum kv.2)) s2
  else s2

/-- Last step of `Span::final_send`: run the sampler hook over the
assembled fields, record the sample rate on the event, and if kept run the
presend hook and hand the event to the transmission. -/
def World.run_hooks_and_transmit (w : World) (sid : Bytes) : World :=
  match lookupA w.spans sid with
  | none => w
  | some s =>
      match s.ev with
      | none => w
      | some e =>
          let kr := w.config.sampler_hook e.fields
          let e1 := { e with sample_rate := kr.2 }
          let w2 := w.updateSpan sid (fun s => { s with ev := some e1 })
          if kr.1 then
            let e2 := { e1 with fields := w2.config.presend_hook e1.fields }
            let w3 := w2.updateSpan sid (fun s => { s with ev := some e2 })
            { w3 with events := w3.events ++ [e2] }
          else w2

/-- `Span::final_send`: the three steps above in order. -/
def Span.final_send (w : World) (sid : Bytes) : World :=
  match lookupA w.spans sid with
  | none => w
  | some s0 =>
      let s3 := (s0.merge_trace_fields w).stamp_span_type
      let w1 := w.updateSpan sid (fun _ => s3)
      World.run_hooks_and_transmit w1 sid

/-- The child filter of `Span::send_locked`: a child is sent along with
its parent exactly when it is still registered and not asynchronous. -/
def syncLive (w : World) (cid : Bytes) : Bool :=
  match lookupA w.spans cid with
  | some c => ! c.is_async
  | none => false

/-- The field stamps of `Span::send_locked` before the children are sent:
`duration_ms`, `trace.parent_id` when the parent id is non-empty,
`trace.trace_id` when the trace id is known, `trace.span_id`, then the
span's own rollup fields under their raw names. -/
def Span.stamp_send_fields (s : Span) : Span :=
  let s1 := s.add_field (ascii "duration_ms") (.num s.timer_ms)
  let s2 :=
    if s1.parent_id ≠ [] then
      s1.add_field (ascii "trace.parent_id") (.str s1.parent_id)
    else s1
  let s3 :=
    match s2.trace with
    | some tid => s2.add_field (ascii "trace.trace_id") (.str tid)
    | none => s2
  let s4 := s3.add_field (ascii "trace.span_id") (.str s3.span_id)
  s4.rollup_fields.foldl
    (fun (x : Span) kv => x.add_field kv.1 (.fnum kv.2)) s4

mutual

/-- `Span::send_locked`: early-return when the event carrier is absent
(without marking the span sent); otherwise stamp `duration_ms`,
`trace.parent_id` (when non-empty), `trace.trace_id` and `trace.span_id`,
merge the span's own rollup fields, send every non-asynchronous child via
`send_by_parent`, run `final_send`, set `is_sent`, and drop the span from
the owning trace's child index.  `fuel` bounds the recursion depth; it is
in surplus whenever it exceeds the depth of the span tree. -/
def Span.send_locked (fuel : Nat) (w : World) (sid : Bytes) : World :=
  match fuel with
  | 0 => w
  | fuel + 1 =>
      match lookupA w.spans sid with
      | none => w
      | some s0 =>
          if s0.ev.isNone then w
          else
            let s5 := s0.stamp_send_fields
            let w1 := w.updateSpan sid (fun _ => s5)
            let childIds := s5.children.filter (fun cid => syncLive w1 cid)
            let w2 := childIds.foldl
              (fun w cid => Span.send_by_parent fuel w cid) w1
            let w3 := Span.final_send w2 sid
            let w4 := w3.updateSpan sid (fun s => { s with is_sent := true })
            match s5.trace with
            | some tid => w4.remove_child_span_from_trace tid sid
            | none => w4

/-- `Span::send_by_parent`: no-op when already sent; otherwise stamp
`meta.sent_by_parent` and run the send protocol. -/
def Span.send_by_parent (fuel : Nat) (w : World) (sid : Bytes) : World :=
  match lookupA w.spans sid with
  | none => w
  | some s =>
      if ¬ s.is_sent then
        let w1 := w.updateSpan sid
          (fun s => s.add_field (ascii "meta.sent_by_parent") (.bool true))
        Span.send_locked fuel w1 sid
      else w

end

/-- `Span::send`: the public entry point; no-op when already sent. -/
def Span.send (w : World) (sid : Bytes) : World :=
  match lookupA w.spans sid with
  | none => w
  | some s =>
      if ¬ s.is_sent then Span.send_locked (w.spans.length + 1) w sid else w

/-- `Span::create_child_span`: resolve the owning trace id; allocate a new
identifier (`newId` models the `Uuid::new_v4` draw); build the child with
an event carrier only if the trace is live in the registry; push the child
onto the parent's `children` unconditionally; record it in the trace's
child index and return it only if the trace is (still) live. -/
def Span.create_child_span (w : World) (parentId : Bytes) (is_async : Bool)
    (newId : Bytes) : World × Option Bytes :=
  match lookupA w.spans parentId with
  | none => (w, none)
  | some p =>
      match p.trace with
      | none => (w, none)
      | some tid =>
          let ev :=
            match lookupA w.traces tid with
            | some t => some (Event.mk t.builder_fields 1)
            | none => none
          let new_span : Span :=
            { span_id := newId, parent_id := p.span_id, trace := some tid,
              ev := ev, is_async := is_async, is_sent := false,
              is_root := false, children := [], rollup_fields := [],
              timer_ms := 0 }
          let w1 := { w with spans := insertA w.spans newId new_span }
          let w2 := w1.updateSpan parentId
            (fun p => { p with children := p.children ++ [newId] })
          match lookupA w2.traces tid with
          | some t =>
              let t2 : Trace :=
                { t with child_spans := insertA t.child_spans newId new_span }
              ({ w2 with traces := insertA w2.traces tid t2 }, some newId)
          | none => (w2, none)

/-- `Span::create_child`: synchronous child. -/
def Span.create_child (w : World) (parentId newId : Bytes) :
    World × Option Bytes :=
  Span.create_child_span w parentId false newId

/-- `Span::create_async_child`: asynchronous child. -/
def Span.create_async_child (w : World) (parentId newId : Bytes) :
    World × Option Bytes :=
  Span.create_child_span w parentId true newId

/-! ### Characterizing one send

`finalEvent`/`sentEvent` spell out, field insert by field insert, the event
that `final_send` (resp. a whole childless `send_locked`) transmits; the
`*_spec` theorems prove the protocol equal to that characterization. -/

theorem Span.add_field_ev_some (s : Span) (e : Event) (hs : s.ev = some e)
    (k : Bytes) (v : Json) :
    s.add_field k v = { s with ev := some (e.add_field k v) } := by
  rw [Span.add_field, hs]

/-- Fields after the trace-level merge of `final_send`. -/
def mergedFields (w : World) (s : Span) (fs : List (Bytes × Json)) :
    List (Bytes × Json) :=
  match s.trace with
  | some tid =>
      match lookupA w.traces tid with
      | some t =>
          match t.trace_level_fields with
          | .obj kvs =>
              kvs.foldl (fun acc kv => insertA acc kv.1 kv.2) fs
          | _ => fs
      | none => fs
  | none => fs

/-- Fields after `stamp_span_type`. -/
def typeStampedFields (s : Span) (fs : List (Bytes × Json)) :
    List (Bytes × Json) :=
  let f2 := insertA fs (ascii "meta.span_type") (.str s.span_type)
  if s.span_type = ascii "root" then
    s.rollup_fields.foldl
      (fun acc kv => insertA acc (ascii "rollup." ++ kv.1) (.fnum kv.2)) f2
  else f2

/-- Fields after the stamps of `send_locked` (before children are sent). -/
def stampedFields (s : Span) (fs : List (Bytes × Json)) :
    List (Bytes × Json) :=
  let f1 := insertA fs (ascii "duration_ms") (.num s.timer_ms)
  let f2 :=
    if s.parent_id ≠ [] then
      insertA f1 (ascii "trace.parent_id") (.str s.parent_id)
    else f1
  let f3 :=
    match s.trace with
    | some tid => insertA f2 (ascii "trace.trace_id") (.str tid)
    | none => f2
  let f4 := insertA f3 (ascii "trace.span_id") (.str s.span_id)
  s.rollup_fields.foldl (fun acc kv => insertA acc kv.1 (.fnum kv.2)) f4

/-- Fields of the event `final_send` hands to the hooks. -/
def finalFields (w : World) (s : Span) (fs : List (Bytes × Json)) :
    List (Bytes × Json) :=
  typeStampedFields s (mergedFields w s fs)

/-- The event `final_send` transmits under the default hooks. -/
def finalEvent (w : World) (s : Span) (e : Event) : Event :=
  Event.mk (finalFields w s e.fields) 1

theorem foldl_add_field_ev (l : List (Bytes × Json)) :
    ∀ (s : Span) (e : Event), s.ev = some e →
      l.foldl (fun (s : Span) (kv : Bytes × Json) =>
        s.add_field kv.1 kv.2) s =
      { s with ev := some (Event.mk
          (l.foldl (fun acc kv => insertA acc kv.1 kv.2) e.fields)
          e.sample_rate) } := by
  induction l with
  | nil => intro s e hs; simp [List.foldl_nil, ← hs]
  | cons kv l ih =>
      intro s e hs
      simp only [List.foldl_cons]
      rw [Span.add_field_ev_some s e hs kv.1 kv.2,
        ih _ (Event.add_field e kv.1 kv.2) rfl]
      rfl

theorem foldl_add_rollup_ev (l : List (Bytes × ℚ)) :
    ∀ (s : Span) (e : Event), s.ev = some e →
      l.foldl (fun (s : Span) kv =>
        s.add_field (ascii "rollup." ++ kv.1) (.fnum kv.2)) s =
      { s with ev := some (Event.mk
          (l.foldl (fun acc kv =>
            insertA acc (ascii "rollup." ++ kv.1) (.fnum kv.2)) e.fields)
          e.sample_rate) } := by
  induction l with
  | nil => intro s e hs; simp [List.foldl_nil, ← hs]
  | cons kv l ih =>
      intro s e hs
      simp only [List.foldl_cons]
      rw [Span.add_field_ev_some s e hs _ _, ih _ _ rfl]
      rfl

theorem updateSpan_of_lookup (w : World) (sid : Bytes) (s : Span)
    (f : Span → Span) (hs : lookupA w.spans sid = some s) :
    w.updateSpan sid f = { w with spans := insertA w.spans sid (f s) } := by
  rw [World.updateSpan, hs]

theorem insertA_insertA {α : Type} (l : List (Bytes × α)) (k : Bytes)
    (v v' : α) : insertA (insertA l k v) k v' = insertA l k v' := by
  induction l with
  | nil => simp [insertA]
  | cons hd tl ih =>
      obtain ⟨k0, v0⟩ := hd
      by_cases h : k0 = k
      · simp [insertA, h]
      · simp [insertA, h, ih]


theorem merge_trace_fields_spec (w : World) (s : Span) (e : Event)
    (hev : s.ev = some e) :
    s.merge_trace_fields w =
      { s with ev := some (Event.mk (mergedFields w s e.fields)
          e.sample_rate) } := by
  rw [Span.merge_trace_fields, mergedFields]
  cases htr : s.trace with
  | none => simp [← hev, ← htr]
  | some tid =>
      cases hts : lookupA w.traces tid with
      | none => simp only [hts, ← hev, ← htr]
      | some t =>
          cases htlf : t.trace_level_fields <;>
            simp only [hts, htlf, foldl_add_field_ev _ s e hev, ← hev, ← htr]

theorem stamp_span_type_spec (s : Span) (e : Event) (hev : s.ev = some e) :
    s.stamp_span_type =
      { s with ev := some (Event.mk (typeStampedFields s e.fields)
          e.sample_rate) } := by
  rw [Span.stamp_span_type, typeStampedFields]
  rw [Span.add_field_ev_some s e hev]
  by_cases hroot : s.span_type = ascii "root"
  · simp only [hroot, if_true, reduceIte]
    rw [foldl_add_rollup_ev _ _ _ rfl]
    simp [Event.add_field, hroot]
  · simp only [hroot, if_false, reduceIte]
    simp [Event.add_field, hroot]

theorem run_hooks_spec (w : World) (sid : Bytes) (s : Span) (e : Event)
    (hs : lookupA w.spans sid = some s) (hev : s.ev = some e)
    (hcfg : w.config = defaultConfig) :
    World.run_hooks_and_transmit w sid =
      { w with
        spans := insertA w.spans sid
          { s with ev := some (Event.mk e.fields 1) },
        events := w.events ++ [Event.mk e.fields 1] } := by
  rw [World.run_hooks_and_transmit, hs]
  simp only [hev, hcfg, defaultConfig]
  rw [updateSpan_of_lookup w sid s _ hs]
  simp only []
  rw [updateSpan_of_lookup _ sid _ _ (lookupA_insertA_self w.spans sid _)]
  simp only [insertA_insertA, hcfg, defaultConfig]
  simp

theorem final_send_spec (w : World) (sid : Bytes) (s : Span) (e : Event)
    (hs : lookupA w.spans sid = some s) (hev : s.ev = some e)
    (hcfg : w.config = defaultConfig) :
    Span.final_send w sid =
      { w with
        spans := insertA w.spans sid { s with ev := some (finalEvent w s e) },
        events := w.events ++ [finalEvent w s e] } := by
  rw [Span.final_send, hs]
  simp only []
  rw [merge_trace_fields_spec w s e hev]
  rw [stamp_span_type_spec _ _ rfl]
  rw [updateSpan_of_lookup w sid s _ hs]
  rw [run_hooks_spec _ sid _
    (Event.mk (typeStampedFields
      { s with ev := some (Event.mk (mergedFields w s e.fields)
          e.sample_rate) }
      (mergedFields w s e.fields)) e.sample_rate)
    (lookupA_insertA_self _ _ _) rfl (by exact hcfg)]
  simp only [insertA_insertA]
  rfl

theorem foldl_add_rawrollup_ev (l : List (Bytes × ℚ)) :
    ∀ (s : Span) (e : Event), s.ev = some e →
      l.foldl (fun (x : Span) kv => x.add_field kv.1 (.fnum kv.2)) s =
      { s with ev := some (Event.mk
          (l.foldl (fun acc kv => insertA acc kv.1 (.fnum kv.2)) e.fields)
          e.sample_rate) } := by
  induction l with
  | nil => intro s e hs; simp [List.foldl_nil, ← hs]
  | cons kv l ih =>
      intro s e hs
      simp only [List.foldl_cons]
      rw [Span.add_field_ev_some s e hs _ _, ih _ _ rfl]
      rfl

theorem add_field_trace (s : Span) (k : Bytes) (v : Json) :
    (s.add_field k v).trace = s.trace := by
  unfold Span.add_field; cases s.ev <;> rfl

theorem add_field_parent_id (s : Span) (k : Bytes) (v : Json) :
    (s.add_field k v).parent_id = s.parent_id := by
  unfold Span.add_field; cases s.ev <;> rfl

theorem add_field_span_id (s : Span) (k : Bytes) (v : Json) :
    (s.add_field k v).span_id = s.span_id := by
  unfold Span.add_field; cases s.ev <;> rfl

theorem add_field_rollup_fields (s : Span) (k : Bytes) (v : Json) :
    (s.add_field k v).rollup_fields = s.rollup_fields := by
  unfold Span.add_field; cases s.ev <;> rfl

theorem stamp_send_fields_spec (s : Span) (e : Event) (hev : s.ev = some e) :
    s.stamp_send_fields =
      { s with ev := some (Event.mk (stampedFields s e.fields)
          e.sample_rate) } := by
  rw [Span.stamp_send_fields, stampedFields]
  simp only [add_field_parent_id, apply_ite Span.trace, add_field_trace,
    ite_self, add_field_span_id, apply_ite Span.span_id,
    add_field_rollup_fields, apply_ite Span.rollup_fields]
  by_cases hpid : s.parent_id ≠ []
  · rw [if_pos hpid, if_pos hpid]
    cases htr : s.trace with
    | none =>
        simp only [htr]
        rw [Span.add_field_ev_some s e hev]
        rw [Span.add_field_ev_some _ _ rfl]
        rw [Span.add_field_ev_some _ _ rfl]
        rw [foldl_add_rawrollup_ev _ _ _ rfl]
        simp [Event.add_field, htr]
    | some tid =>
        simp only [htr]
        rw [Span.add_field_ev_some s e hev]
        rw [Span.add_field_ev_some _ _ rfl]
        rw [Span.add_field_ev_some _ _ rfl]
        rw [Span.add_field_ev_some _ _ rfl]
        rw [foldl_add_rawrollup_ev _ _ _ rfl]
        simp [Event.add_field, htr]
  · rw [if_neg hpid, if_neg hpid]
    cases htr : s.trace with
    | none =>
        simp only [htr]
        rw [Span.add_field_ev_some s e hev]
        rw [Span.add_field_ev_some _ _ rfl]
        rw [foldl_add_rawrollup_ev _ _ _ rfl]
        simp [Event.add_field, htr]
    | some tid =>
        simp only [htr]
        rw [Span.add_field_ev_some s e hev]
        rw [Span.add_field_ev_some _ _ rfl]
        rw [Span.add_field_ev_some _ _ rfl]
        rw [foldl_add_rawrollup_ev _ _ _ rfl]
        simp [Event.add_field, htr]

/-- The event a childless `send_locked` transmits under the default hooks. -/
def sentEvent (w : World) (s : Span) (e : Event) : Event :=
  Event.mk (finalFields w s (stampedFields s e.fields)) 1

/-- The world a childless `send_locked` leaves behind. -/
def sentWorld (w : World) (sid : Bytes) (s : Span) (e : Event) : World :=
  let w4 : World := { w with
    spans := insertA w.spans sid
      { s with ev := some (sentEvent w s e), is_sent := true },
    events := w.events ++ [sentEvent w s e] }
  match s.trace with
  | some tid => w4.remove_child_span_from_trace tid sid
  | none => w4

theorem send_locked_leaf_spec (fuel : Nat) (w : World) (sid : Bytes)
    (s : Span) (e : Event)
    (hs : lookupA w.spans sid = some s) (hev : s.ev = some e)
    (hch : s.children = []) (hcfg : w.config = defaultConfig) :
    Span.send_locked (fuel + 1) w sid = sentWorld w sid s e := by
  rw [Span.send_locked, hs]
  simp only [hev, Option.isNone_some, Bool.false_eq_true, if_false, reduceIte]
  rw [stamp_send_fields_spec s e hev]
  rw [updateSpan_of_lookup w sid s _ hs]
  simp only [hch, List.filter_nil, List.foldl_nil]
  rw [final_send_spec _ sid _ (Event.mk (stampedFields s e.fields)
      e.sample_rate) (lookupA_insertA_self _ _ _) rfl (by exact hcfg)]
  rw [updateSpan_of_lookup _ sid _ _ (lookupA_insertA_self _ _ _)]
  simp only [insertA_insertA]
  rw [sentWorld, sentEvent]
  cases htr : s.trace with
  | none =>
      simp only [htr, finalEvent, finalFields, mergedFields,
        typeStampedFields, Span.span_type, hch]
  | some tid =>
      simp only [htr, finalEvent, finalFields, mergedFields,
        typeStampedFields, Span.span_type, hch]

theorem remove_child_spans (w : World) (tid sid : Bytes) :
    (w.remove_child_span_from_trace tid sid).spans = w.spans := by
  rw [World.remove_child_span_from_trace]
  cases lookupA w.traces tid <;> rfl

theorem remove_child_events (w : World) (tid sid : Bytes) :
    (w.remove_child_span_from_trace tid sid).events = w.events := by
  rw [World.remove_child_span_from_trace]
  cases lookupA w.traces tid <;> rfl

theorem remove_child_config (w : World) (tid sid : Bytes) :
    (w.remove_child_span_from_trace tid sid).config = w.config := by
  rw [World.remove_child_span_from_trace]
  cases lookupA w.traces tid <;> rfl

theorem sentWorld_spans (w : World) (sid : Bytes) (s : Span) (e : Event) :
    (sentWorld w sid s e).spans =
      insertA w.spans sid
        { s with ev := some (sentEvent w s e), is_sent := true } := by
  rw [sentWorld]
  cases s.trace with
  | none => rfl
  | some tid => rw [remove_child_spans]

theorem sentWorld_events (w : World) (sid : Bytes) (s : Span) (e : Event) :
    (sentWorld w sid s e).events = w.events ++ [sentEvent w s e] := by
  rw [sentWorld]
  cases s.trace with
  | none => rfl
  | some tid => rw [remove_child_events]

theorem sentWorld_config (w : World) (sid : Bytes) (s : Span) (e : Event) :
    (sentWorld w sid s e).config = w.config := by
  rw [sentWorld]
  cases s.trace with
  | none => rfl
  | some tid => rw [remove_child_config]

/-- Model-level precondition on a child span before the parent sends it. -/
def childOK (w : World) (cid : Bytes) : Prop :=
  ∃ c e, lookupA w.spans cid = some c ∧ c.ev = some e ∧
    c.is_sent = false ∧ c.children = [] ∧ c.rollup_fields = [] ∧
    c.is_root = false

/-- No trace-level field shadowing `meta.sent_by_parent`. -/
def tlfOK (w : World) : Prop :=
  ∀ tid t, lookupA w.traces tid = some t →
    ∀ kvs, t.trace_level_fields = .obj kvs →
      lookupA kvs (ascii "meta.sent_by_parent") = none

/-- A child after the parent's send: marked sent, its transmitted event
carrying `meta.sent_by_parent = true`. -/
def sentChild (w : World) (cid : Bytes) : Prop :=
  ∃ c e, lookupA w.spans cid = some c ∧ c.is_sent = true ∧
    c.ev = some e ∧
    lookupA e.fields (ascii "meta.sent_by_parent") = some (.bool true)

/-- The world `send_by_parent` leaves behind for a childless unsent
child: the `meta.sent_by_parent` stamp followed by a whole leaf send. -/
def sentByParentWorld (w : World) (cid : Bytes) (c : Span) (e : Event) :
    World :=
  let e1 := e.add_field (ascii "meta.sent_by_parent") (.bool true)
  let c1 : Span := { c with ev := some e1 }
  let w1 : World := { w with spans := insertA w.spans cid c1 }
  sentWorld w1 cid c1 e1

theorem send_by_parent_leaf (f : Nat) (w : World) (cid : Bytes)
    (c : Span) (e : Event)
    (hc : lookupA w.spans cid = some c) (hev : c.ev = some e)
    (hsent : c.is_sent = false) (hch : c.children = [])
    (hcfg : w.config = defaultConfig) :
    Span.send_by_parent (f + 1) w cid = sentByParentWorld w cid c e := by
  rw [Span.send_by_parent, hc]
  simp only [hsent, Bool.false_eq_true, not_false_iff, if_true, reduceIte]
  rw [updateSpan_of_lookup w cid c _ hc]
  rw [Span.add_field_ev_some c e hev]
  rw [sentByParentWorld]
  exact send_locked_leaf_spec f _ cid _ _ (lookupA_insertA_self _ _ _) rfl
    hch (by exact hcfg)

theorem lookupA_none_forall {α : Type} (l : List (Bytes × α)) (k : Bytes)
    (h : lookupA l k = none) : ∀ kv ∈ l, kv.1 ≠ k := by
  induction l with
  | nil => intro kv hkv; simp at hkv
  | cons hd tl ih =>
      obtain ⟨k0, v0⟩ := hd
      intro kv hkv
      rw [lookupA] at h
      by_cases h0 : k0 = k
      · simp [h0] at h
      · simp only [if_neg h0] at h
        rcases List.mem_cons.mp hkv with h1 | h1
        · simpa [h1] using h0
        · exact ih h kv h1

theorem fold_insertA_lookup {α : Type} (kvs : List (Bytes × α)) (k : Bytes)
    (hk : ∀ kv ∈ kvs, kv.1 ≠ k) :
    ∀ fs : List (Bytes × α),
      lookupA (kvs.foldl (fun acc kv => insertA acc kv.1 kv.2) fs) k =
        lookupA fs k := by
  induction kvs with
  | nil => intro fs; rfl
  | cons kv kvs ih =>
      intro fs
      rw [List.foldl_cons]
      rw [ih (fun x hx => hk x (List.mem_cons_of_mem kv hx))]
      exact lookupA_insertA_ne fs kv.1 k kv.2
        (hk kv (List.mem_cons_self kv kvs))

theorem stampedFields_lookup_msb (s : Span) (fs : List (Bytes × Json))
    (hru : s.rollup_fields = []) :
    lookupA (stampedFields s fs) (ascii "meta.sent_by_parent") =
      lookupA fs (ascii "meta.sent_by_parent") := by
  rw [stampedFields, hru]
  simp only [List.foldl_nil]
  rw [lookupA_insertA_ne _ _ _ _ (by decide)]
  cases s.trace with
  | none =>
      by_cases hp : s.parent_id ≠ []
      · rw [if_pos hp, lookupA_insertA_ne _ _ _ _ (by decide),
          lookupA_insertA_ne _ _ _ _ (by decide)]
      · rw [if_neg hp, lookupA_insertA_ne _ _ _ _ (by decide)]
  | some tid =>
      rw [lookupA_insertA_ne _ _ _ _ (by decide)]
      by_cases hp : s.parent_id ≠ []
      · rw [if_pos hp, lookupA_insertA_ne _ _ _ _ (by decide),
          lookupA_insertA_ne _ _ _ _ (by decide)]
      · rw [if_neg hp, lookupA_insertA_ne _ _ _ _ (by decide)]

theorem mergedFields_lookup_msb (w : World) (s : Span)
    (fs : List (Bytes × Json)) (htlf : tlfOK w) :
    lookupA (mergedFields w s fs) (ascii "meta.sent_by_parent") =
      lookupA fs (ascii "meta.sent_by_parent") := by
  rw [mergedFields]
  cases htr : s.trace with
  | none => simp only [htr]
  | some tid =>
      simp only [htr]
      cases hts : lookupA w.traces tid with
      | none => simp only [hts]
      | some t =>
          simp only [hts]
          cases hobj : t.trace_level_fields with
          | obj kvs =>
              simp only [hobj]
              exact fold_insertA_lookup kvs _
                (lookupA_none_forall kvs _ (htlf tid t hts kvs hobj)) fs
          | null => simp only [hobj]
          | bool b => simp only [hobj]
          | num n => simp only [hobj]
          | fnum q => simp only [hobj]
          | str bs => simp only [hobj]
          | arr l => simp only [hobj]

theorem span_type_ne_root (s : Span) (hroot : s.is_root = false) :
    s.span_type ≠ ascii "root" := by
  rw [Span.span_type, hroot]
  simp only [Bool.false_eq_true, if_false, reduceIte]
  by_cases ha : s.is_async = true
  · simp only [ha, if_true, reduceIte]; decide
  · simp only [ha, if_false, reduceIte]
    by_cases hc : s.children = []
    · simp only [hc, if_true, reduceIte]; decide
    · simp only [hc, if_false, reduceIte]; decide

theorem typeStampedFields_lookup_msb (s : Span) (fs : List (Bytes × Json))
    (hroot : s.is_root = false) :
    lookupA (typeStampedFields s fs) (ascii "meta.sent_by_parent") =
      lookupA fs (ascii "meta.sent_by_parent") := by
  rw [typeStampedFields]
  simp only [if_neg (span_type_ne_root s hroot)]
  exact lookupA_insertA_ne _ _ _ _ (by decide)

theorem sentEvent_lookup_msb (w : World) (c1 : Span) (e1 : Event)
    (hroot : c1.is_root = false) (hru : c1.rollup_fields = [])
    (htlf : tlfOK w)
    (hmsb : lookupA e1.fields (ascii "meta.sent_by_parent") =
      some (.bool true)) :
    lookupA (sentEvent w c1 e1).fields (ascii "meta.sent_by_parent") =
      some (.bool true) := by
  rw [sentEvent]
  show lookupA (finalFields w c1 (stampedFields c1 e1.fields)) _ = _
  rw [finalFields]
  rw [typeStampedFields_lookup_msb _ _ hroot]
  rw [mergedFields_lookup_msb _ _ _ htlf]
  rw [stampedFields_lookup_msb _ _ hru]
  exact hmsb

theorem tlfOK_remove (w : World) (tid sid : Bytes) (h : tlfOK w) :
    tlfOK (w.remove_child_span_from_trace tid sid) := by
  intro tid' t' hl kvs hkvs
  rw [World.remove_child_span_from_trace] at hl
  cases hts : lookupA w.traces tid with
  | none =>
      rw [hts] at hl
      exact h tid' t' hl kvs hkvs
  | some t =>
      rw [hts] at hl
      simp only [] at hl
      by_cases he : tid = tid'
      · subst he
        rw [lookupA_insertA_self] at hl
        cases hl
        exact h tid t hts kvs hkvs
      · rw [lookupA_insertA_ne _ _ _ _ he] at hl
        exact h tid' t' hl kvs hkvs

theorem tlfOK_sentWorld (w : World) (sid : Bytes) (s : Span) (e : Event)
    (h : tlfOK w) : tlfOK (sentWorld w sid s e) := by
  rw [sentWorld]
  cases s.trace with
  | none => exact h
  | some tid => exact tlfOK_remove _ tid sid h

/-- The state of a child span after `send_by_parent` has sent it. -/
def sentChildSpan (w : World) (cid : Bytes) (c : Span) (e : Event) : Span :=
  let e1 := e.add_field (ascii "meta.sent_by_parent") (.bool true)
  let c1 : Span := { c with ev := some e1 }
  let w1 : World := { w with spans := insertA w.spans cid c1 }
  { c1 with ev := some (sentEvent w1 c1 e1), is_sent := true }

theorem sentByParentWorld_spans (w : World) (cid : Bytes) (c : Span)
    (e : Event) :
    (sentByParentWorld w cid c e).spans =
      insertA w.spans cid (sentChildSpan w cid c e) := by
  rw [sentByParentWorld, sentChildSpan]
  rw [sentWorld_spans]
  exact insertA_insertA _ _ _ _

theorem sentByParentWorld_events_len (w : World) (cid : Bytes) (c : Span)
    (e : Event) :
    (sentByParentWorld w cid c e).events.length = w.events.length + 1 := by
  rw [sentByParentWorld, sentWorld_events]
  simp

theorem sentByParentWorld_config (w : World) (cid : Bytes) (c : Span)
    (e : Event) :
    (sentByParentWorld w cid c e).config = w.config := by
  rw [sentByParentWorld, sentWorld_config]

theorem sentByParentWorld_tlfOK (w : World) (cid : Bytes) (c : Span)
    (e : Event) (h : tlfOK w) : tlfOK (sentByParentWorld w cid c e) := by
  rw [sentByParentWorld]
  exact tlfOK_sentWorld _ _ _ _ h

theorem sentByParentWorld_lookup_ne (w : World) (cid : Bytes) (c : Span)
    (e : Event) (id : Bytes) (h : cid ≠ id) :
    lookupA (sentByParentWorld w cid c e).spans id = lookupA w.spans id := by
  rw [sentByParentWorld_spans]
  exact lookupA_insertA_ne _ _ _ _ h

theorem sentByParentWorld_sentChild (w : World) (cid : Bytes) (c : Span)
    (e : Event) (hroot : c.is_root = false) (hru : c.rollup_fields = [])
    (htlf : tlfOK w) :
    sentChild (sentByParentWorld w cid c e) cid := by
  refine ⟨sentChildSpan w cid c e, _, ?_, rfl, rfl, ?_⟩
  · rw [sentByParentWorld_spans]
    exact lookupA_insertA_self _ _ _
  · exact sentEvent_lookup_msb _ _ _ (by exact hroot) (by exact hru)
      (by exact htlf) (lookupA_insertA_self _ _ _)

theorem sentChild_of_lookup_eq (w w' : World) (cid : Bytes)
    (h : sentChild w cid)
    (hl : lookupA w'.spans cid = lookupA w.spans cid) :
    sentChild w' cid := by
  obtain ⟨c, e, hc, hs, he, hm⟩ := h
  exact ⟨c, e, hl.trans hc, hs, he, hm⟩

theorem fold_send_by_parent (f : Nat) (l : List Bytes) :
    ∀ (w : World), l.Nodup →
      (∀ cid ∈ l, childOK w cid) → tlfOK w → w.config = defaultConfig →
      (l.foldl (fun w cid => Span.send_by_parent (f + 1) w cid)
          w).events.length = w.events.length + l.length ∧
      (∀ id, id ∉ l →
        lookupA (l.foldl (fun w cid => Span.send_by_parent (f + 1) w cid)
          w).spans id = lookupA w.spans id) ∧
      (∀ cid ∈ l, sentChild
        (l.foldl (fun w cid => Span.send_by_parent (f + 1) w cid) w) cid) ∧
      tlfOK (l.foldl (fun w cid => Span.send_by_parent (f + 1) w cid) w) ∧
      (l.foldl (fun w cid => Span.send_by_parent (f + 1) w cid)
          w).config = defaultConfig := by
  induction l with
  | nil =>
      intro w _ _ htlf hcfg
      refine ⟨rfl, fun id _ => rfl, fun cid h => absurd h (by simp),
        htlf, hcfg⟩
  | cons cid l ih =>
      intro w hnd hok htlf hcfg
      obtain ⟨c, e, hc, hev, hsent, hch, hru, hroot⟩ :=
        hok cid (List.mem_cons_self cid l)
      have hstep : Span.send_by_parent (f + 1) w cid =
          sentByParentWorld w cid c e :=
        send_by_parent_leaf f w cid c e hc hev hsent hch hcfg
      have hcidl : cid ∉ l := (List.nodup_cons.mp hnd).1
      have hndl : l.Nodup := (List.nodup_cons.mp hnd).2
      have hok' : ∀ cid' ∈ l, childOK (sentByParentWorld w cid c e) cid' := by
        intro cid' hmem
        obtain ⟨c', e', hc', hev', hsent', hch', hru', hroot'⟩ :=
          hok cid' (List.mem_cons_of_mem cid hmem)
        refine ⟨c', e', ?_, hev', hsent', hch', hru', hroot'⟩
        rw [sentByParentWorld_lookup_ne w cid c e cid'
          (fun hq => hcidl (hq ▸ hmem))]
        exact hc'
      have htlf' := sentByParentWorld_tlfOK w cid c e htlf
      have hcfg' : (sentByParentWorld w cid c e).config = defaultConfig :=
        (sentByParentWorld_config w cid c e).trans hcfg
      obtain ⟨ihlen, ihlook, ihsent, ihtlf, ihcfg⟩ :=
        ih (sentByParentWorld w cid c e) hndl hok' htlf' hcfg'
      rw [List.foldl_cons, hstep]
      refine ⟨?_, ?_, ?_, ihtlf, ihcfg⟩
      · rw [ihlen, sentByParentWorld_events_len]
        simp [List.length_cons]
        omega
      · intro id hid
        rw [ihlook id (fun h => hid (List.mem_cons_of_mem cid h))]
        exact sentByParentWorld_lookup_ne w cid c e id
          (fun hq => hid (hq ▸ List.mem_cons_self cid l))
      · intro cid' hmem
        rcases List.mem_cons.mp hmem with h1 | h1
        · subst h1
          exact sentChild_of_lookup_eq _ _ cid'
            (sentByParentWorld_sentChild w cid' c e hroot hru htlf)
            (ihlook cid' hcidl)
        · exact ihsent cid' h1

/-- The synchronous (live, non-async) children of a span, as
`send_locked` filters them. -/
def syncIds (w : World) (s : Span) : List Bytes :=
  s.children.filter (fun cid => syncLive w cid)

/-- The parent span after the stamps of `send_locked`. -/
def stampedSpan (s : Span) (e : Event) : Span :=
  { s with ev := some (Event.mk (stampedFields s e.fields) e.sample_rate) }

/-- The world after the parent span has been stamped and written back. -/
def stampedWorld (w : World) (sid : Bytes) (s : Span) (e : Event) : World :=
  { w with spans := insertA w.spans sid (stampedSpan s e) }

/-- The world after every live synchronous child has been sent. -/
def childrenWorld (w : World) (sid : Bytes) (s : Span) (e : Event)
    (f : Nat) : World :=
  (syncIds w s).foldl (fun w cid => Span.send_by_parent (f + 1) w cid)
    (stampedWorld w sid s e)

/-- The world `Span::send` leaves behind for an unsent span with an event
carrier: stamps, children, `final_send`, the `is_sent` mark, and the
trace's child-index cleanup. -/
def sendResult (w : World) (sid : Bytes) (s : Span) (e : Event)
    (f : Nat) : World :=
  match s.trace with
  | some tid =>
      ((Span.final_send (childrenWorld w sid s e f) sid).updateSpan sid
        (fun x => { x with is_sent := true })).remove_child_span_from_trace
        tid sid
  | none =>
      (Span.final_send (childrenWorld w sid s e f) sid).updateSpan sid
        (fun x => { x with is_sent := true })

theorem send_unfold (w : World) (sid : Bytes) (s : Span) (e : Event)
    (f : Nat) (hf : w.spans.length = f + 1)
    (hs : lookupA w.spans sid = some s) (hev : s.ev = some e)
    (hsent : s.is_sent = false)
    (hsid : sid ∉ s.children) :
    Span.send w sid = sendResult w sid s e f := by
  rw [Span.send, hs]
  simp only []
  rw [if_pos (show ¬ (s.is_sent = true) from fun hq => by
    rw [hsent] at hq; exact Bool.false_ne_true hq)]
  rw [hf]
  rw [Span.send_locked, hs]
  simp only [hev, Option.isNone_some, Bool.false_eq_true, if_false,
    reduceIte]
  rw [stamp_send_fields_spec s e hev]
  rw [updateSpan_of_lookup w sid s _ hs]
  have hfilter : ∀ s5 : Span,
      List.filter (fun cid =>
        syncLive { w with spans := insertA w.spans sid s5 } cid)
        s.children = syncIds w s := by
    intro s5
    rw [syncIds]
    refine List.filter_congr ?_
    intro cid hmem
    rw [syncLive, syncLive]
    rw [show ({ w with spans := insertA w.spans sid s5 } : World).spans =
      insertA w.spans sid s5 from rfl]
    rw [lookupA_insertA_ne _ _ _ _ (fun hq => hsid (by rw [hq]; exact hmem))]
  simp only [hfilter]
  rfl

theorem stampedWorld_lookup_self (w : World) (sid : Bytes) (s : Span)
    (e : Event) :
    lookupA (stampedWorld w sid s e).spans sid = some (stampedSpan s e) :=
  lookupA_insertA_self _ _ _

theorem stampedWorld_lookup_ne (w : World) (sid : Bytes) (s : Span)
    (e : Event) (id : Bytes) (h : sid ≠ id) :
    lookupA (stampedWorld w sid s e).spans id = lookupA w.spans id :=
  lookupA_insertA_ne _ _ _ _ h

theorem sid_not_syncIds (w : World) (sid : Bytes) (s : Span)
    (hnd : (sid :: s.children).Nodup) : sid ∉ syncIds w s := by
  intro hmem
  exact (List.nodup_cons.mp hnd).1 (List.mem_of_mem_filter hmem)

theorem childrenWorld_facts (w : World) (sid : Bytes) (s : Span) (e : Event)
    (f : Nat) (hnd : (sid :: s.children).Nodup)
    (hok : ∀ cid ∈ syncIds w s, childOK w cid)
    (htlf : tlfOK w) (hcfg : w.config = defaultConfig) :
    (childrenWorld w sid s e f).events.length =
        w.events.length + (syncIds w s).length ∧
    (∀ id, id ∉ syncIds w s →
      lookupA (childrenWorld w sid s e f).spans id =
        lookupA (stampedWorld w sid s e).spans id) ∧
    lookupA (childrenWorld w sid s e f).spans sid =
      some (stampedSpan s e) ∧
    (∀ cid ∈ syncIds w s, sentChild (childrenWorld w sid s e f) cid) ∧
    tlfOK (childrenWorld w sid s e f) ∧
    (childrenWorld w sid s e f).config = defaultConfig := by
  have hsidn : sid ∉ s.children := (List.nodup_cons.mp hnd).1
  have hndsync : (syncIds w s).Nodup :=
    List.Nodup.filter _ (List.nodup_cons.mp hnd).2
  have hok' : ∀ cid ∈ syncIds w s,
      childOK (stampedWorld w sid s e) cid := by
    intro cid hmem
    obtain ⟨c, e', hc, hev', hsent', hch', hru', hroot'⟩ := hok cid hmem
    refine ⟨c, e', ?_, hev', hsent', hch', hru', hroot'⟩
    rw [stampedWorld_lookup_ne w sid s e cid
      (fun hq => hsidn (by rw [hq]; exact List.mem_of_mem_filter hmem))]
    exact hc
  have htlf' : tlfOK (stampedWorld w sid s e) := htlf
  have hcfg' : (stampedWorld w sid s e).config = defaultConfig := hcfg
  obtain ⟨hlen, hlook, hsentc, htlf2, hcfg2⟩ :=
    fold_send_by_parent f (syncIds w s) (stampedWorld w sid s e)
      hndsync hok' htlf' hcfg'
  refine ⟨hlen, hlook, ?_, hsentc, htlf2, hcfg2⟩
  rw [show (childrenWorld w sid s e f) = (syncIds w s).foldl
    (fun w cid => Span.send_by_parent (f + 1) w cid)
    (stampedWorld w sid s e) from rfl]
  rw [hlook sid (sid_not_syncIds w sid s hnd)]
  exact stampedWorld_lookup_self w sid s e

theorem syncIds_subset (w : World) (s : Span) (cid : Bytes)
    (h : cid ∈ syncIds w s) : cid ∈ s.children := by
  rw [syncIds] at h
  exact List.mem_of_mem_filter h

/-- The event the parent span itself transmits. -/
def parentEvent (w : World) (sid : Bytes) (s : Span) (e : Event)
    (f : Nat) : Event :=
  finalEvent (childrenWorld w sid s e f) (stampedSpan s e)
    (Event.mk (stampedFields s e.fields) e.sample_rate)

/-- The parent span's final state. -/
def finalSentSpan (w : World) (sid : Bytes) (s : Span) (e : Event)
    (f : Nat) : Span :=
  { stampedSpan s e with
    ev := some (parentEvent w sid s e f), is_sent := true }

theorem sendResult_facts (w : World) (sid : Bytes) (s : Span) (e : Event)
    (f : Nat) (hnd : (sid :: s.children).Nodup)
    (hok : ∀ cid ∈ syncIds w s, childOK w cid)
    (htlf : tlfOK w) (hcfg : w.config = defaultConfig) :
    (sendResult w sid s e f).events.length =
        w.events.length + 1 + (syncIds w s).length ∧
    (∀ cid ∈ syncIds w s, sentChild (sendResult w sid s e f) cid) ∧
    (∀ id, id ≠ sid → id ∉ syncIds w s →
      lookupA (sendResult w sid s e f).spans id = lookupA w.spans id) ∧
    lookupA (sendResult w sid s e f).spans sid =
      some (finalSentSpan w sid s e f) := by
  obtain ⟨hlen, hlook, hsid2, hsentc, htlf2, hcfg2⟩ :=
    childrenWorld_facts w sid s e f hnd hok htlf hcfg
  have hfse := final_send_spec (childrenWorld w sid s e f) sid
    (stampedSpan s e) (Event.mk (stampedFields s e.fields) e.sample_rate)
    hsid2 rfl hcfg2
  have hw4 : (Span.final_send (childrenWorld w sid s e f) sid).updateSpan
      sid (fun x => { x with is_sent := true }) =
      { childrenWorld w sid s e f with
        spans := insertA (childrenWorld w sid s e f).spans sid
          (finalSentSpan w sid s e f),
        events := (childrenWorld w sid s e f).events ++
          [parentEvent w sid s e f] } := by
    rw [hfse]
    rw [updateSpan_of_lookup _ sid _ _ (lookupA_insertA_self _ _ _)]
    simp only [insertA_insertA]
    rfl
  refine ⟨?_, ?_, ?_, ?_⟩
  · rw [sendResult]
    cases htr : s.trace with
    | some tid =>
        simp only [htr]
        rw [remove_child_events, hw4]
        simp only [List.length_append, List.length_cons, List.length_nil,
          hlen]
        omega
    | none =>
        simp only [htr]
        rw [hw4]
        simp only [List.length_append, List.length_cons, List.length_nil,
          hlen]
        omega
  · intro cid hmem
    have hne : sid ≠ cid := fun hq =>
      (List.nodup_cons.mp hnd).1 (hq ▸ syncIds_subset w s cid hmem)
    refine sentChild_of_lookup_eq _ _ cid (hsentc cid hmem) ?_
    rw [sendResult]
    cases htr : s.trace with
    | some tid =>
        simp only [htr]
        rw [remove_child_spans, hw4]
        exact lookupA_insertA_ne _ _ _ _ hne
    | none =>
        simp only [htr]
        rw [hw4]
        exact lookupA_insertA_ne _ _ _ _ hne
  · intro id hne hnm
    rw [sendResult]
    cases htr : s.trace with
    | some tid =>
        simp only [htr]
        rw [remove_child_spans, hw4]
        rw [show ({ childrenWorld w sid s e f with
          spans := insertA (childrenWorld w sid s e f).spans sid
            (finalSentSpan w sid s e f),
          events := (childrenWorld w sid s e f).events ++
            [parentEvent w sid s e f] } : World).spans =
          insertA (childrenWorld w sid s e f).spans sid
            (finalSentSpan w sid s e f) from rfl]
        rw [lookupA_insertA_ne _ _ _ _ (Ne.symm hne)]
        rw [hlook id hnm]
        exact stampedWorld_lookup_ne w sid s e id (Ne.symm hne)
    | none =>
        simp only [htr]
        rw [hw4]
        rw [show ({ childrenWorld w sid s e f with
          spans := insertA (childrenWorld w sid s e f).spans sid
            (finalSentSpan w sid s e f),
          events := (childrenWorld w sid s e f).events ++
            [parentEvent w sid s e f] } : World).spans =
          insertA (childrenWorld w sid s e f).spans sid
            (finalSentSpan w sid s e f) from rfl]
        rw [lookupA_insertA_ne _ _ _ _ (Ne.symm hne)]
        rw [hlook id hnm]
        exact stampedWorld_lookup_ne w sid s e id (Ne.symm hne)
  · rw [sendResult]
    cases htr : s.trace with
    | some tid =>
        simp only [htr]
        rw [remove_child_spans, hw4]
        exact lookupA_insertA_self _ _ _
    | none =>
        simp only [htr]
        rw [hw4]
        exact lookupA_insertA_self _ _ _

theorem send_leaf (w : World) (sid : Bytes) (s : Span) (e : Event)
    (hs : lookupA w.spans sid = some s) (hev : s.ev = some e)
    (hsent : s.is_sent = false) (hch : s.children = [])
    (hcfg : w.config = defaultConfig) :
    Span.send w sid = sentWorld w sid s e := by
  rw [Span.send, hs]
  simp only []
  rw [if_pos (show ¬ (s.is_sent = true) from fun hq => by
    rw [hsent] at hq; exact Bool.false_ne_true hq)]
  exact send_locked_leaf_spec w.spans.length w sid s e hs hev hch hcfg

theorem send_leaf_second_noop (w : World) (sid : Bytes) (s : Span)
    (e : Event) (hs : lookupA w.spans sid = some s) (hev : s.ev = some e)
    (hsent : s.is_sent = false) (hch : s.children = [])
    (hcfg : w.config = defaultConfig) :
    Span.send (Span.send w sid) sid = Span.send w sid := by
  rw [send_leaf w sid s e hs hev hsent hch hcfg]
  rw [Span.send]
  rw [show lookupA (sentWorld w sid s e).spans sid =
      some { s with ev := some (sentEvent w s e), is_sent := true } by
    rw [sentWorld_spans]; exact lookupA_insertA_self _ _ _]
  simp

theorem rollupKey_ne_msp (k : Bytes) :
    ascii "rollup." ++ k ≠ ascii "meta.span_type" := by
  intro h
  have : (114 : Nat) = 109 := List.head_eq_of_cons_eq h
  omega

theorem fold_insertA_rollup_lookup (l : List (Bytes × ℚ)) (k : Bytes)
    (hk : ∀ kv ∈ l, ascii "rollup." ++ kv.1 ≠ k) :
    ∀ fs : List (Bytes × Json),
      lookupA (l.foldl (fun acc kv =>
        insertA acc (ascii "rollup." ++ kv.1) (.fnum kv.2)) fs) k =
      lookupA fs k := by
  induction l with
  | nil => intro fs; rfl
  | cons kv l ih =>
      intro fs
      rw [List.foldl_cons]
      rw [ih (fun x hx => hk x (List.mem_cons_of_mem kv hx))]
      exact lookupA_insertA_ne fs _ k _ (hk kv (List.mem_cons_self kv l))

theorem typeStampedFields_lookup_msp (s : Span) (fs : List (Bytes × Json)) :
    lookupA (typeStampedFields s fs) (ascii "meta.span_type") =
      some (.str s.span_type) := by
  rw [typeStampedFields]
  by_cases hroot : s.span_type = ascii "root"
  · simp only [hroot, if_true, reduceIte]
    rw [fold_insertA_rollup_lookup _ _ (fun kv _ => rollupKey_ne_msp kv.1)]
    rw [← hroot]
    exact lookupA_insertA_self _ _ _
  · simp only [hroot, if_false, reduceIte]
    exact lookupA_insertA_self _ _ _

theorem sentEvent_lookup_msp (w : World) (s : Span) (e : Event) :
    lookupA (sentEvent w s e).fields (ascii "meta.span_type") =
      some (.str s.span_type) := by
  rw [sentEvent]
  show lookupA (finalFields w s (stampedFields s e.fields)) _ = _
  rw [finalFields]
  exact typeStampedFields_lookup_msp s _

theorem typeStampedFields_lookup_ne (s : Span) (fs : List (Bytes × Json))
    (k : Bytes) (hk : k ≠ ascii "meta.span_type")
    (hru : s.rollup_fields = []) :
    lookupA (typeStampedFields s fs) k = lookupA fs k := by
  rw [typeStampedFields, hru]
  by_cases hroot : s.span_type = ascii "root"
  · simp only [hroot, if_true, reduceIte, List.foldl_nil]
    exact lookupA_insertA_ne _ _ _ _ (Ne.symm hk)
  · simp only [hroot, if_false, reduceIte]
    exact lookupA_insertA_ne _ _ _ _ (Ne.symm hk)

theorem mergedFields_lookup_single (w : World) (s : Span)
    (fs : List (Bytes × Json)) (tid k : Bytes) (v : Json) (t : Trace)
    (htr : s.trace = some tid) (ht : lookupA w.traces tid = some t)
    (hobj : t.trace_level_fields = .obj [(k, v)]) :
    lookupA (mergedFields w s fs) k = some v := by
  rw [mergedFields]
  simp only [htr, ht, hobj, List.foldl_cons, List.foldl_nil]
  exact lookupA_insertA_self _ _ _

theorem span_type_cases (s : Span) :
    (s.is_root = true → s.parent_id = [] → s.span_type = ascii "root") ∧
    (s.is_root = true → s.parent_id ≠ [] →
      s.span_type = ascii "subroot") ∧
    (s.is_root = false → s.is_async = true →
      s.span_type = ascii "async") ∧
    (s.is_root = false → s.is_async = false → s.children = [] →
      s.span_type = ascii "leaf") ∧
    (s.is_root = false → s.is_async = false → s.children ≠ [] →
      s.span_type = ascii "mid") := by
  refine ⟨?_, ?_, ?_, ?_, ?_⟩ <;> intro h1 h2 <;>
    first
    | (intro h3; rw [Span.span_type]; simp [h1, h2, h3])
    | (rw [Span.span_type]; simp [h1, h2])

theorem span_type_mem (s : Span) :
    s.span_type = ascii "root" ∨ s.span_type = ascii "subroot" ∨
    s.span_type = ascii "async" ∨ s.span_type = ascii "leaf" ∨
    s.span_type = ascii "mid" := by
  rw [Span.span_type]
  by_cases h1 : s.is_root = true
  · by_cases h2 : s.parent_id = [] <;> simp [h1, h2]
  · by_cases h3 : s.is_async = true
    · simp [h1, h3]
    · by_cases h4 : s.children = [] <;> simp [h1, h3, h4]

theorem create_child_span_facts (w : World) (pid newId : Bytes) (p : Span)
    (tid : Bytes) (b : Bool)
    (hp : lookupA w.spans pid = some p) (htr : p.trace = some tid)
    (hnone : lookupA w.traces tid = none) (hne : newId ≠ pid) :
    (Span.create_child_span w pid b newId).2 = none ∧
    (∃ p', lookupA (Span.create_child_span w pid b newId).1.spans pid =
      some p' ∧ p'.children = p.children ++ [newId]) ∧
    (∃ c, lookupA (Span.create_child_span w pid b newId).1.spans newId =
      some c ∧ c.ev = none) ∧
    (Span.create_child_span w pid b newId).1.traces = w.traces := by
  rw [Span.create_child_span, hp]
  simp only [htr, hnone]
  rw [updateSpan_of_lookup _ pid p _ ((lookupA_insertA_ne _ _ _ _ hne).trans hp)]
  simp only [hnone]
  refine ⟨trivial, ⟨_, lookupA_insertA_self _ _ _, rfl⟩,
    ⟨{ is_async := b, is_sent := false, is_root := false, children := [],
       ev := none, span_id := newId, parent_id := p.span_id,
       rollup_fields := [], timer_ms := 0, trace := some tid }, ?_, rfl⟩,
    trivial⟩
  rw [lookupA_insertA_ne _ _ _ _ (Ne.symm hne)]
  exact lookupA_insertA_self _ _ _

theorem trace_add_field_unfold (w : World) (tid k : Bytes) (v : Json)
    (t : Trace) (ht : lookupA w.traces tid = some t) :
    w.trace_add_field tid k v =
      { w with traces := insertA w.traces tid (t.add_field k v) } := by
  rw [World.trace_add_field, ht]

theorem trace_field_merge_at_send (w : World) (sid tid k : Bytes)
    (v : Json) (s : Span) (e : Event) (t : Trace)
    (hs : lookupA w.spans sid = some s) (htr : s.trace = some tid)
    (hev : s.ev = some e) (hsent : s.is_sent = false)
    (hch : s.children = []) (hru : s.rollup_fields = [])
    (ht : lookupA w.traces tid = some t)
    (htlf0 : t.trace_level_fields = .obj [])
    (hk : k ≠ ascii "meta.span_type")
    (hcfg : w.config = defaultConfig) :
    ∃ ev : Event,
      (Span.send (w.trace_add_field tid k v) sid).events =
        w.events ++ [ev] ∧
      lookupA ev.fields k = some v := by
  rw [trace_add_field_unfold w tid k v t ht]
  rw [send_leaf _ sid s e (by exact hs) hev hsent hch (by exact hcfg)]
  refine ⟨sentEvent
    ({ w with traces := insertA w.traces tid (t.add_field k v) })
    s e, ?_, ?_⟩
  · rw [sentWorld_events]
  · rw [sentEvent]
    show lookupA (finalFields _ s (stampedFields s e.fields)) k = some v
    rw [finalFields]
    rw [typeStampedFields_lookup_ne s _ k hk hru]
    refine mergedFields_lookup_single _ s _ tid k v (t.add_field k v)
      htr ?_ ?_
    · exact lookupA_insertA_self _ _ _
    · rw [Trace.add_field, htlf0]
      rfl

/-- Claim C1: the spec says each malformed header (foreign version, empty
trace_id with non-empty parent_id, bad base64, bad JSON) yields a
descriptive decode error, never a panic.  The code instead silently
returns an all-empty `Propagation` for a foreign version and aborts
(`unimplemented!`/`unwrap` panic) in the other three cases. -/
theorem claim_C1 :
    Propagation.unmarshal_trace_context (ascii "9;trace_id=a") =
      .ok ⟨[], [], [], .obj []⟩ ∧
    Propagation.unmarshal_trace_context (ascii "1;parent_id=a") =
      .panic ∧
    Propagation.unmarshal_trace_context (ascii "1;trace_id=a,context=!") =
      .panic ∧
    Propagation.unmarshal_trace_context
      (ascii "1;trace_id=a,context=bm8=") = .panic := by
  refine ⟨rfl, ?_, ?_, ?_⟩
  · simp [Propagation.unmarshal_trace_context,
      Propagation.unmarshal_trace_context_v1, splitAll, splitOnce,
      applyClause, ascii]
  · simp [Propagation.unmarshal_trace_context,
      Propagation.unmarshal_trace_context_v1, splitAll, splitOnce,
      applyClause, ascii, b64Decode, b64DecodeLast, b64Val]
  · simp [Propagation.unmarshal_trace_context,
      Propagation.unmarshal_trace_context_v1, splitAll, splitOnce,
      applyClause, ascii, b64Decode, b64DecodeLast, b64Val, jsonFromSlice,
      parseVal, skipWs, isWs]

/-- Claim C2 (amended): decode∘encode is the identity for a `Propagation`
whose string fields contain no `,` and whose `trace_context` is a
canonical JSON object, provided additionally that `trace_id` is non-empty
whenever `parent_id` is (otherwise decode hits the `unimplemented!`
abort). -/
theorem claim_C2 (p : Propagation)
    (htid : 44 ∉ p.trace_id) (hpid : 44 ∉ p.parent_id)
    (hds : 44 ∉ p.dataset) (hctx : canonV p.trace_context = true)
    (hval : ¬ (p.trace_id = [] ∧ p.parent_id ≠ [])) :
    Propagation.unmarshal_trace_context p.marshal_trace_context = .ok p :=
  unmarshal_marshal p htid hpid hds hctx hval

/-- Witness for C2 at the repository's own `test_unmarshal_with_dataset`
vector. -/
theorem claim_C2_witness :
    (44 ∉ ascii "weofijwoeifj") ∧ (44 ∉ ascii "owefjoweifj") ∧
    (44 ∉ ascii "dada") ∧
    canonV (.obj [(ascii "key", .str (ascii "value"))]) = true ∧
    ¬ ((ascii "weofijwoeifj" : Bytes) = [] ∧
      (ascii "owefjoweifj" : Bytes) ≠ []) ∧
    Propagation.unmarshal_trace_context
      (Propagation.marshal_trace_context
        ⟨ascii "weofijwoeifj", ascii "owefjoweifj", ascii "dada",
          .obj [(ascii "key", .str (ascii "value"))]⟩) =
      .ok ⟨ascii "weofijwoeifj", ascii "owefjoweifj", ascii "dada",
        .obj [(ascii "key", .str (ascii "value"))]⟩ := by
  refine ⟨by decide, by decide, by decide, by decide, by decide, ?_⟩
  exact claim_C2 _ (by decide) (by decide) (by decide) (by decide)
    (by decide)

/-- Counterexample to the unamended C2: the empty-trace-id/non-empty-
parent-id `Propagation` encodes fine but its decode aborts instead of
returning it. -/
theorem claim_C2_counterexample :
    Propagation.unmarshal_trace_context
      (Propagation.marshal_trace_context
        ⟨[], ascii "x", [], .obj []⟩) = .panic := by
  simp [Propagation.marshal_trace_context, Propagation.unmarshal_trace_context,
    Propagation.unmarshal_trace_context_v1, splitAll, splitOnce,
    applyClause, ascii, PROPAGATION_VERSION, natDigits, printV,
    printMembers, b64Encode, b64Char]

/-- The trace of the rollup demonstration: no trace-level fields, no
rollups yet. -/
def c3Trace : Trace :=
  { builder_fields := [], builder_dataset := [], trace_id := ascii "t",
    parent_id := [], rollup_fields := [], root_span := ascii "s",
    trace_level_fields := .obj [], child_spans := [] }

/-- The root span of the rollup demonstration: its private per-span
accumulator holds `x ↦ 3`. -/
def c3Span : Span :=
  { is_async := false, is_sent := false, is_root := true, children := [],
    ev := some (Event.mk [] 1), span_id := ascii "s", parent_id := [],
    rollup_fields := [(ascii "x", 3)], timer_ms := 0,
    trace := some (ascii "t") }

/-- The demonstration world before the rollup additions. -/
def c3World0 : World :=
  { spans := [(ascii "s", c3Span)], traces := [(ascii "t", c3Trace)],
    events := [], config := defaultConfig }

/-- The demonstration world after two `Trace::add_rollup_field` calls of 5
under `bignum`: the trace-wide sum is 10. -/
def c3World : World :=
  (c3World0.trace_add_rollup_field (ascii "t") (ascii "bignum")
    5).trace_add_rollup_field (ascii "t") (ascii "bignum") 5

theorem claim_C3 :
    ((c3World.get_trace (ascii "t")).map
      (fun t => (lookupA t.rollup_fields (ascii "bignum")).isSome)) =
        some true ∧
    (Span.send c3World (ascii "s")).events.map
      (fun ev => ((lookupA ev.fields (ascii "rollup.bignum")).isNone,
        (lookupA ev.fields (ascii "rollup.x")).isSome)) = [(true, true)] ∧
    (Span.send c3World (ascii "s")).events.map
      (fun ev => lookupA ev.fields (ascii "meta.span_type")) =
        [some (.str (ascii "root"))] := by
  refine ⟨rfl, ?_, ?_⟩ <;>
  · rw [send_leaf c3World (ascii "s") c3Span (Event.mk [] 1) rfl rfl rfl
      rfl rfl]
    rw [sentWorld_events]
    rfl

/-- Claim C4: for an unsent childless span with an event carrier, `send`
transmits exactly one event, and a second `send` is a no-op: it panics
nowhere, transmits nothing, and leaves the whole world — in particular
the span, now `is_sent` — untouched. -/
theorem claim_C4 (w : World) (sid : Bytes) (s : Span) (e : Event)
    (hs : lookupA w.spans sid = some s) (hev : s.ev = some e)
    (hsent : s.is_sent = false) (hch : s.children = [])
    (hcfg : w.config = defaultConfig) :
    (Span.send w sid).events = w.events ++ [sentEvent w s e] ∧
    Span.send (Span.send w sid) sid = Span.send w sid := by
  constructor
  · rw [send_leaf w sid s e hs hev hsent hch hcfg]
    exact sentWorld_events w sid s e
  · exact send_leaf_second_noop w sid s e hs hev hsent hch hcfg

/-- A minimal world exercising C4: one childless unsent span. -/
def c4Span : Span :=
  { is_async := false, is_sent := false, is_root := true, children := [],
    ev := some (Event.mk [] 1), span_id := ascii "s", parent_id := [],
    rollup_fields := [], timer_ms := 0, trace := none }

def c4World : World :=
  { spans := [(ascii "s", c4Span)], traces := [], events := [],
    config := defaultConfig }

/-- Witness for C4. -/
theorem claim_C4_witness :
    lookupA c4World.spans (ascii "s") = some c4Span ∧
    c4Span.ev = some (Event.mk [] 1) ∧
    c4Span.is_sent = false ∧ c4Span.children = ([] : List Bytes) ∧
    c4World.config = defaultConfig ∧
    ((Span.send c4World (ascii "s")).events =
      c4World.events ++ [sentEvent c4World c4Span (Event.mk [] 1)] ∧
    Span.send (Span.send c4World (ascii "s")) (ascii "s") =
      Span.send c4World (ascii "s")) :=
  ⟨rfl, rfl, rfl, rfl, rfl,
    claim_C4 c4World (ascii "s") c4Span (Event.mk [] 1) rfl rfl rfl rfl
      rfl⟩

/-- Claim C5: sending an unsent span whose registered children are
childless and unsent transmits exactly `N + 1` events, where `N` counts
the synchronous (live, non-async) children; each synchronous child ends
up sent with `meta.sent_by_parent = true` on its transmitted event, while
every other span — in particular each asynchronous child — is left
exactly as it was, hence unsent and eventless until sent explicitly. -/
theorem claim_C5 (w : World) (sid : Bytes) (s : Span) (e : Event)
    (f : Nat) (hf : w.spans.length = f + 1)
    (hs : lookupA w.spans sid = some s) (hev : s.ev = some e)
    (hsent : s.is_sent = false)
    (hnd : (sid :: s.children).Nodup)
    (hok : ∀ cid ∈ syncIds w s, childOK w cid)
    (htlf : tlfOK w) (hcfg : w.config = defaultConfig) :
    (Span.send w sid).events.length =
        w.events.length + 1 + (syncIds w s).length ∧
    (∀ cid ∈ syncIds w s, sentChild (Span.send w sid) cid) ∧
    (∀ id, id ≠ sid → id ∉ syncIds w s →
      lookupA (Span.send w sid).spans id = lookupA w.spans id) := by
  rw [send_unfold w sid s e f hf hs hev hsent (List.nodup_cons.mp hnd).1]
  obtain ⟨h1, h2, h3, _⟩ := sendResult_facts w sid s e f hnd hok htlf hcfg
  exact ⟨h1, h2, h3⟩

def c5Child (b : Bool) (n : Bytes) : Span :=
  { is_async := b, is_sent := false, is_root := false, children := [],
    ev := some (Event.mk [] 1), span_id := n, parent_id := ascii "p",
    rollup_fields := [], timer_ms := 0, trace := none }

def c5Parent : Span :=
  { is_async := false, is_sent := false, is_root := true,
    children := [ascii "c1", ascii "c2", ascii "a1"],
    ev := some (Event.mk [] 1), span_id := ascii "p", parent_id := [],
    rollup_fields := [], timer_ms := 0, trace := none }

/-- Two synchronous children, one asynchronous. -/
def c5World : World :=
  { spans := [(ascii "p", c5Parent),
      (ascii "c1", c5Child false (ascii "c1")),
      (ascii "c2", c5Child false (ascii "c2")),
      (ascii "a1", c5Child true (ascii "a1"))],
    traces := [], events := [], config := defaultConfig }

/-- Witness for C5: in `c5World` the parent send transmits 3 events
(parent + 2 synchronous children) and leaves the async child alone. -/
theorem claim_C5_witness :
    c5World.spans.length = 3 + 1 ∧
    lookupA c5World.spans (ascii "p") = some c5Parent ∧
    c5Parent.ev = some (Event.mk [] 1) ∧ c5Parent.is_sent = false ∧
    (ascii "p" :: c5Parent.children).Nodup ∧
    (∀ cid ∈ syncIds c5World c5Parent, childOK c5World cid) ∧
    tlfOK c5World ∧ c5World.config = defaultConfig ∧
    ((Span.send c5World (ascii "p")).events.length =
        c5World.events.length + 1 +
          (syncIds c5World c5Parent).length ∧
    (∀ cid ∈ syncIds c5World c5Parent,
      sentChild (Span.send c5World (ascii "p")) cid) ∧
    (∀ id, id ≠ ascii "p" → id ∉ syncIds c5World c5Parent →
      lookupA (Span.send c5World (ascii "p")).spans id =
        lookupA c5World.spans id)) := by
  have hok : ∀ cid ∈ syncIds c5World c5Parent, childOK c5World cid := by
    intro cid hmem
    rw [show syncIds c5World c5Parent = [ascii "c1", ascii "c2"] from rfl]
      at hmem
    rcases List.mem_cons.mp hmem with h | h
    · exact ⟨c5Child false (ascii "c1"), Event.mk [] 1,
        by rw [h]; rfl, rfl, rfl, rfl, rfl, rfl⟩
    · rcases List.mem_cons.mp h with h2 | h2
      · exact ⟨c5Child false (ascii "c2"), Event.mk [] 1,
          by rw [h2]; rfl, rfl, rfl, rfl, rfl, rfl⟩
      · exact absurd h2 (by simp)
  have htlf : tlfOK c5World := by
    intro tid t h
    exact absurd h (by simp [c5World, lookupA])
  refine ⟨rfl, rfl, rfl, rfl, by decide, hok, htlf, rfl, ?_⟩
  exact claim_C5 c5World (ascii "p") c5Parent (Event.mk [] 1) 3 rfl rfl
    rfl rfl (by decide) hok htlf rfl

/-- Claim C6: `final_send` stamps `meta.span_type` on the transmitted
event with exactly the value of the five-case rule — `root` for root
spans with empty `parent_id`, `subroot` for root spans with a parent,
`async` for non-root async spans, `leaf` for non-root childless spans,
`mid` otherwise — and that value is always one of the five. -/
theorem claim_C6 (w : World) (sid : Bytes) (s : Span) (e : Event)
    (hs : lookupA w.spans sid = some s) (hev : s.ev = some e)
    (hcfg : w.config = defaultConfig) :
    ((Span.final_send w sid).events = w.events ++ [finalEvent w s e] ∧
     lookupA (finalEvent w s e).fields (ascii "meta.span_type") =
       some (.str s.span_type)) ∧
    (s.span_type = ascii "root" ∨ s.span_type = ascii "subroot" ∨
     s.span_type = ascii "async" ∨ s.span_type = ascii "leaf" ∨
     s.span_type = ascii "mid") ∧
    (s.is_root = true → s.parent_id = [] → s.span_type = ascii "root") ∧
    (s.is_root = true → s.parent_id ≠ [] →
      s.span_type = ascii "subroot") ∧
    (s.is_root = false → s.is_async = true →
      s.span_type = ascii "async") ∧
    (s.is_root = false → s.is_async = false → s.children = [] →
      s.span_type = ascii "leaf") ∧
    (s.is_root = false → s.is_async = false → s.children ≠ [] →
      s.span_type = ascii "mid") := by
  obtain ⟨r1, r2, r3, r4, r5⟩ := span_type_cases s
  refine ⟨⟨?_, ?_⟩, span_type_mem s, r1, r2, r3, r4, r5⟩
  · rw [final_send_spec w sid s e hs hev hcfg]
  · rw [show (finalEvent w s e).fields =
      finalFields w s e.fields from rfl, finalFields]
    exact typeStampedFields_lookup_msp s _

def c6Span : Span :=
  { is_async := false, is_sent := false, is_root := false, children := [],
    ev := some (Event.mk [] 1), span_id := ascii "s",
    parent_id := ascii "p", rollup_fields := [], timer_ms := 0,
    trace := none }

def c6World : World :=
  { spans := [(ascii "s", c6Span)], traces := [], events := [],
    config := defaultConfig }

/-- Witness for C6 on a childless non-root span (a `leaf`). -/
theorem claim_C6_witness :
    lookupA c6World.spans (ascii "s") = some c6Span ∧
    c6Span.ev = some (Event.mk [] 1) ∧
    c6World.config = defaultConfig ∧
    (((Span.final_send c6World (ascii "s")).events =
        c6World.events ++ [finalEvent c6World c6Span (Event.mk [] 1)] ∧
      lookupA (finalEvent c6World c6Span (Event.mk [] 1)).fields
        (ascii "meta.span_type") = some (.str c6Span.span_type)) ∧
    (c6Span.span_type = ascii "root" ∨
     c6Span.span_type = ascii "subroot" ∨
     c6Span.span_type = ascii "async" ∨
     c6Span.span_type = ascii "leaf" ∨
     c6Span.span_type = ascii "mid") ∧
    (c6Span.is_root = true → c6Span.parent_id = [] →
      c6Span.span_type = ascii "root") ∧
    (c6Span.is_root = true → c6Span.parent_id ≠ [] →
      c6Span.span_type = ascii "subroot") ∧
    (c6Span.is_root = false → c6Span.is_async = true →
      c6Span.span_type = ascii "async") ∧
    (c6Span.is_root = false → c6Span.is_async = false →
      c6Span.children = [] → c6Span.span_type = ascii "leaf") ∧
    (c6Span.is_root = false → c6Span.is_async = false →
      c6Span.children ≠ [] → c6Span.span_type = ascii "mid")) :=
  ⟨rfl, rfl, rfl,
    claim_C6 c6World (ascii "s") c6Span (Event.mk [] 1) rfl rfl rfl⟩

/-- Claim C7: a field added to the owning trace through `Trace::add_field`
while the span is alive appears in the span's transmitted event when the
span is sent later: the merge reads the trace's current fields through
the registry at send time. -/
theorem claim_C7 (w : World) (sid tid k : Bytes) (v : Json) (s : Span)
    (e : Event) (t : Trace)
    (hs : lookupA w.spans sid = some s) (htr : s.trace = some tid)
    (hev : s.ev = some e) (hsent : s.is_sent = false)
    (hch : s.children = []) (hru : s.rollup_fields = [])
    (ht : lookupA w.traces tid = some t)
    (htlf0 : t.trace_level_fields = .obj [])
    (hk : k ≠ ascii "meta.span_type")
    (hcfg : w.config = defaultConfig) :
    ∃ ev : Event,
      (Span.send (w.trace_add_field tid k v) sid).events =
        w.events ++ [ev] ∧
      lookupA ev.fields k = some v :=
  trace_field_merge_at_send w sid tid k v s e t hs htr hev hsent hch hru
    ht htlf0 hk hcfg

def c7Span : Span :=
  { is_async := false, is_sent := false, is_root := true, children := [],
    ev := some (Event.mk [] 1), span_id := ascii "s", parent_id := [],
    rollup_fields := [], timer_ms := 0, trace := some (ascii "t") }

def c7Trace : Trace :=
  { builder_fields := [], builder_dataset := [], trace_id := ascii "t",
    parent_id := [], rollup_fields := [], root_span := ascii "s",
    trace_level_fields := .obj [], child_spans := [] }

def c7World : World :=
  { spans := [(ascii "s", c7Span)], traces := [(ascii "t", c7Trace)],
    events := [], config := defaultConfig }

/-- Witness for C7: add `user ↦ "u1"` to the live trace, then send. -/
theorem claim_C7_witness :
    lookupA c7World.spans (ascii "s") = some c7Span ∧
    c7Span.trace = some (ascii "t") ∧
    c7Span.ev = some (Event.mk [] 1) ∧
    c7Span.is_sent = false ∧ c7Span.children = ([] : List Bytes) ∧
    c7Span.rollup_fields = [] ∧
    lookupA c7World.traces (ascii "t") = some c7Trace ∧
    c7Trace.trace_level_fields = .obj [] ∧
    (ascii "user" : Bytes) ≠ ascii "meta.span_type" ∧
    c7World.config = defaultConfig ∧
    (∃ ev : Event,
      (Span.send (c7World.trace_add_field (ascii "t") (ascii "user")
        (.str (ascii "u1"))) (ascii "s")).events =
        c7World.events ++ [ev] ∧
      lookupA ev.fields (ascii "user") = some (.str (ascii "u1"))) :=
  ⟨rfl, rfl, rfl, rfl, rfl, rfl, rfl, rfl, by decide, rfl,
    claim_C7 c7World (ascii "s") (ascii "t") (ascii "user")
      (.str (ascii "u1")) c7Span (Event.mk [] 1) c7Trace rfl rfl rfl rfl
      rfl rfl rfl rfl (by decide) rfl⟩

/-- Claim C8: encoding is a total function (hence deterministic and
non-failing); the emitted header is `1;` followed by the clauses in the
fixed order `trace_id`, `parent_id`, a `dataset` clause exactly when
`dataset` is non-empty, then `context` last. -/
theorem claim_C8 (p : Propagation)
    (htid : 44 ∉ p.trace_id) (hpid : 44 ∉ p.parent_id)
    (hds : 44 ∉ p.dataset) (hctx : canonV p.trace_context = true) :
    ∃ body, splitOnce 59 p.marshal_trace_context = (ascii "1", some body) ∧
      splitAll 44 body =
        [ascii "trace_id=" ++ p.trace_id,
          ascii "parent_id=" ++ p.parent_id] ++
        (if p.dataset = [] then [] else [ascii "dataset=" ++ p.dataset]) ++
        [ascii "context=" ++ b64Encode (printV p.trace_context)] :=
  marshal_clause_structure p htid hpid hds hctx

/-- Witness for C8 at the repository's `test_marshal` vector (the
`dataset = "dada"` variant). -/
theorem claim_C8_witness :
    (44 ∉ ascii "abcdef123456") ∧ (44 ∉ ascii "0102030405") ∧
    (44 ∉ ascii "dada") ∧
    canonV (.obj [(ascii "key", .str (ascii "value"))]) = true ∧
    (∃ body, splitOnce 59 (Propagation.marshal_trace_context
        ⟨ascii "abcdef123456", ascii "0102030405", ascii "dada",
          .obj [(ascii "key", .str (ascii "value"))]⟩) =
        (ascii "1", some body) ∧
      splitAll 44 body =
        [ascii "trace_id=" ++ ascii "abcdef123456",
          ascii "parent_id=" ++ ascii "0102030405"] ++
        (if (ascii "dada" : Bytes) = [] then []
          else [ascii "dataset=" ++ ascii "dada"]) ++
        [ascii "context=" ++ b64Encode (printV
          (.obj [(ascii "key", .str (ascii "value"))]))]) :=
  ⟨by decide, by decide, by decide, by decide,
    claim_C8 ⟨ascii "abcdef123456", ascii "0102030405", ascii "dada",
      .obj [(ascii "key", .str (ascii "value"))]⟩ (by decide) (by decide)
      (by decide) (by decide)⟩

/-- Claim C10: when the parent names a trace that is no longer in the
registry, `create_child_span` returns no child id, yet it has already
appended the freshly allocated id to the parent's `children` and
registered the event-less child span; the trace registry — in particular
any child index — is untouched. -/
theorem claim_C10 (w : World) (pid newId : Bytes) (p : Span)
    (tid : Bytes) (b : Bool)
    (hp : lookupA w.spans pid = some p) (htr : p.trace = some tid)
    (hnone : lookupA w.traces tid = none) (hne : newId ≠ pid) :
    (Span.create_child_span w pid b newId).2 = none ∧
    (∃ p', lookupA (Span.create_child_span w pid b newId).1.spans pid =
      some p' ∧ p'.children = p.children ++ [newId]) ∧
    (∃ c, lookupA (Span.create_child_span w pid b newId).1.spans newId =
      some c ∧ c.ev = none) ∧
    (Span.create_child_span w pid b newId).1.traces = w.traces :=
  create_child_span_facts w pid newId p tid b hp htr hnone hne

def c10Parent : Span :=
  { is_async := false, is_sent := false, is_root := true, children := [],
    ev := some (Event.mk [] 1), span_id := ascii "p", parent_id := [],
    rollup_fields := [], timer_ms := 0, trace := some (ascii "gone") }

/-- A world whose parent references a trace absent from the registry. -/
def c10World : World :=
  { spans := [(ascii "p", c10Parent)], traces := [], events := [],
    config := defaultConfig }

/-- Witness for C10. -/
theorem claim_C10_witness :
    lookupA c10World.spans (ascii "p") = some c10Parent ∧
    c10Parent.trace = some (ascii "gone") ∧
    lookupA c10World.traces (ascii "gone") = none ∧
    (ascii "n" : Bytes) ≠ ascii "p" ∧
    ((Span.create_child_span c10World (ascii "p") false
        (ascii "n")).2 = none ∧
    (∃ p', lookupA (Span.create_child_span c10World (ascii "p") false
        (ascii "n")).1.spans (ascii "p") = some p' ∧
      p'.children = c10Parent.children ++ [ascii "n"]) ∧
    (∃ c, lookupA (Span.create_child_span c10World (ascii "p") false
        (ascii "n")).1.spans (ascii "n") = some c ∧ c.ev = none) ∧
    (Span.create_child_span c10World (ascii "p") false
        (ascii "n")).1.traces = c10World.traces) :=
  ⟨rfl, rfl, rfl, by decide,
    claim_C10 c10World (ascii "p") (ascii "n") c10Parent (ascii "gone")
      false rfl rfl rfl (by decide)⟩
